import Mathlib

/-!
Verification of the logrefactor analysis-and-rewrite pipeline.

Go strings are modelled as `List Char` (`GoStr`); Go `int` as `Int` where the
source compares possibly-zero catalog coordinates, `Nat` for list indexing.
Each definition below is a direct translation of the correspondingly named Go
function from `internal/transformer/transformer.go` or the collector package.
The two stdlib facilities the transformer calls out to — `encoding/json`
unmarshalling of the field-override column and `text/template`
parse-and-execute for the custom style — are serialization boundaries and are
passed in as explicit function parameters.
-/

/-- A Go string, modelled as its character sequence. -/
abbrev GoStr := List Char

/-- Coerce a Lean string literal into the `GoStr` model. -/
def gs (s : String) : GoStr := s.data

/-- Model of Go `strings.Split` with a one-character separator.  Always
returns at least one (possibly empty) segment. -/
def splitOnChar (sep : Char) : GoStr → List GoStr
  | [] => [[]]
  | c :: rest =>
    if c = sep then [] :: splitOnChar sep rest
    else
      match splitOnChar sep rest with
      | [] => [[c]]
      | s :: ss => (c :: s) :: ss

/-- Model of Go `strings.Join`. -/
def joinSep (sep : GoStr) : List GoStr → GoStr
  | [] => []
  | [s] => s
  | s :: rest => s ++ sep ++ joinSep sep rest

/-- `leadsWith pat s` holds when `pat` is a leading segment of `s`
(Go `strings.HasPrefix`). -/
def leadsWith : GoStr → GoStr → Bool
  | [], _ => true
  | _ :: _, [] => false
  | p :: ps, c :: cs => p = c && leadsWith ps cs

/-- `trailsWith pat s`: `pat` is a trailing segment of `s`
(Go `strings.HasSuffix`). -/
def trailsWith (pat s : GoStr) : Bool :=
  leadsWith pat.reverse s.reverse

/-- Model of Go `strings.Contains` (substring search). -/
def goContainsSub (s pat : GoStr) : Bool :=
  if leadsWith pat s then true
  else
    match s with
    | [] => false
    | _ :: r => goContainsSub r pat

/-- Index of the first occurrence of character `c` (Go `strings.Index` with a
one-character needle; `none` models the `-1` result). -/
def charIdx (c : Char) : GoStr → Option Nat
  | [] => none
  | d :: rest =>
    if d = c then some 0
    else (charIdx c rest).map (· + 1)

/-- Whitespace predicate used to model Go `strings.TrimSpace`
(ASCII whitespace; the source never produces other whitespace kinds). -/
def isWS (c : Char) : Bool := c = ' ' ∨ c = '\t' ∨ c = '\n' ∨ c = '\r'

/-- Model of Go `strings.TrimSpace`. -/
def goTrimSpace (s : GoStr) : GoStr :=
  ((s.dropWhile isWS).reverse.dropWhile isWS).reverse

/-- Model of Go `strings.Trim` with a cutset. -/
def goTrimCut (s : GoStr) (cutset : GoStr) : GoStr :=
  ((s.dropWhile (cutset.contains ·)).reverse.dropWhile (cutset.contains ·)).reverse

/-- Model of Go `strings.TrimPrefix`. -/
def goTrimLeading (s pat : GoStr) : GoStr :=
  if leadsWith pat s then s.drop pat.length else s

/-- Model of Go `strings.ToLower` (ASCII). -/
def goToLower (s : GoStr) : GoStr := s.map Char.toLower

/-- Model of Go `strings.Title` (ASCII): uppercase every letter that follows a
non-letter; the boolean carries whether the previous character was a letter. -/
def goTitleAux : Bool → GoStr → GoStr
  | _, [] => []
  | prevLetter, c :: r =>
    (if c.isAlpha ∧ ¬prevLetter then c.toUpper else c) :: goTitleAux c.isAlpha r

/-- Model of Go `strings.Title` applied to a single word. -/
def goTitle (s : GoStr) : GoStr := goTitleAux false s

/-- Split at the first occurrence of `c` (Go `strings.SplitN(s, c, 2)` when
`c` occurs): returns (text before, text after). -/
def splitAtFirst (c : Char) : GoStr → GoStr × GoStr
  | [] => ([], [])
  | d :: rest =>
    if d = c then ([], rest)
    else
      let (a, b) := splitAtFirst c rest
      (d :: a, b)

/-- Model of Go `strings.Fields`: split around runs of whitespace. -/
def goFields : GoStr → List GoStr
  | [] => []
  | c :: rest =>
    if isWS c then goFields rest
    else
      match goFields rest with
      | [] => [[c]]
      | w :: ws =>
        match rest with
        | [] => [[c]]
        | d :: _ => if isWS d then [c] :: w :: ws else (c :: w) :: ws

/-- The quote cutset used by the collector and transformer:
double quote, single quote, backtick. -/
def quoteCutset : GoStr := [Char.ofNat 34, Char.ofNat 39, Char.ofNat 96]


/-! ## Collector data model (`collector` package) -/

/-- Literal kinds of `go/token` basic literals. -/
inductive LitKind where
  | int | float | imag | char | string
deriving DecidableEq, Repr

/-- The fragment of `go/ast` expressions that the collector's helpers
inspect.  A call expression's arguments are never read by `formatExpr`,
`inferType` or `getFunctionName` (only its callee is), so the model keeps
only the callee. -/
inductive GoExpr where
  | basicLit (kind : LitKind) (value : GoStr)
  | ident (name : GoStr)
  | selector (x : GoExpr) (sel : GoStr)
  | call (fn : GoExpr)
  | index (x : GoExpr)
  | unary (op : GoStr) (x : GoExpr)
  | binary (x : GoExpr) (op : GoStr) (y : GoExpr)
  | other (typeName : GoStr)
deriving DecidableEq, Repr

/-- One analyzed positional argument (`collector.Argument`).  The Go field
`Type` is spelled `Typ` because `Type` is a Lean keyword. -/
structure Argument where
  Index : Nat
  Expression : GoStr
  VarName : GoStr
  Typ : GoStr
  FormatVerb : GoStr
  SuggestedKey : GoStr
deriving DecidableEq, Repr

/-- `collector.formatExpr`: render an expression node back to source-ish text. -/
def formatExpr : GoExpr → GoStr
  | .basicLit _ v => v
  | .ident n => n
  | .selector x sel => formatExpr x ++ gs "." ++ sel
  | .call fn => formatExpr fn ++ gs "()"
  | .index x => formatExpr x ++ gs "[...]"
  | .unary op x => op ++ formatExpr x
  | .binary x op y => formatExpr x ++ gs " " ++ op ++ gs " " ++ formatExpr y
  | .other tname => gs "<" ++ tname ++ gs ">"

/-- `collector.getFunctionName`. -/
def getFunctionName : GoExpr → GoStr
  | .call fn =>
    match fn with
    | .selector x sel =>
      match x with
      | .ident n => n ++ gs "." ++ sel
      | _ => formatExpr (.selector x sel)
    | .ident n => n
    | _ => []
  | _ => []

/-- `collector.extractVarName`: last dot-separated component. -/
def extractVarName (expr : GoStr) : GoStr :=
  (splitOnChar '.' expr).getLastD expr

/-- `collector.inferType`: heuristic syntactic type tags. -/
def inferType : GoExpr → GoStr
  | .basicLit k _ =>
    match k with
    | .int => gs "int"
    | .float => gs "float"
    | .string => gs "string"
    | .char => gs "rune"
    | .imag => gs "unknown"
  | .ident name =>
    if name = gs "true" ∨ name = gs "false" then gs "bool"
    else if name = gs "nil" then gs "nil"
    else if leadsWith (gs "is") name ∨ leadsWith (gs "has") name then gs "bool"
    else if name = gs "err" ∨ trailsWith (gs "Error") name then gs "error"
    else gs "unknown"
  | .call _ => gs "func_result"
  | _ => gs "unknown"

/-- `collector.toSnakeCase` body loop; the boolean records `i > 0`. -/
def snakeAux : Bool → GoStr → GoStr
  | _, [] => []
  | notFirst, c :: r =>
    (if notFirst ∧ 'A' ≤ c ∧ c ≤ 'Z' then ['_', c] else [c]) ++ snakeAux true r

/-- `collector.toSnakeCase`. -/
def toSnakeCase (s : GoStr) : GoStr := goToLower (snakeAux false s)

/-- `collector.generateFieldKey` (the format verb and inferred type are
accepted but unused, as in the source). -/
def generateFieldKey (varName _formatVerb _inferredType : GoStr) : GoStr :=
  let key := toSnakeCase varName
  let key := goTrimLeading key (gs "p_")
  let key := goTrimLeading key (gs "m_")
  if key = gs "err" ∨ key = gs "error" then gs "error"
  else if key = gs "msg" ∨ key = gs "message" then gs "message"
  else if key = gs "id" then gs "id"
  else if key = gs "name" then gs "name"
  else if key = gs "status" ∨ key = gs "state" then gs "status"
  else key

/-- Capitalize the first character (Go `strings.ToUpper(level[:1]) + level[1:]`). -/
def capFirst : GoStr → GoStr
  | [] => []
  | c :: r => c.toUpper :: r

/-- The priority-ordered level vocabulary of `collector.extractLogLevel`. -/
def levelWords : List GoStr :=
  [gs "trace", gs "debug", gs "info", gs "warn", gs "warning",
   gs "error", gs "fatal", gs "panic"]

/-- `collector.extractLogLevel`. -/
def extractLogLevel (funcName : GoStr) : GoStr :=
  let funcLower := goToLower funcName
  match levelWords.find? (fun l => goContainsSub funcLower l) with
  | some l => capFirst l
  | none =>
    if goContainsSub funcLower (gs "print") then gs "Info" else gs "Unknown"

/-! ## Format-verb extraction

`collector.extractFormatVerbs` applies the Go regexp
`%[-+# 0]*[\d]*\.?[\d]*[vTtbcdoqxXUeEfFgGsp]` with `FindAllString`
(successive leftmost non-overlapping matches).  Because the flag, digit and
dot character classes are disjoint from the verb character class, the
leftmost-first match of this pattern coincides with maximal munch, which the
scanner below implements. -/

def isFlagChar (c : Char) : Bool :=
  c = '-' ∨ c = '+' ∨ c = '#' ∨ c = ' ' ∨ c = '0'

def isDigitChar (c : Char) : Bool := '0' ≤ c ∧ c ≤ '9'

/-- The conversion-specifier characters of the verb regexp. -/
def verbChars : GoStr := gs "vTtbcdoqxXUeEfFgGsp"

def isVerbChar (c : Char) : Bool := verbChars.contains c

/-- Match the tail of a format verb (everything after the `%`): flags, width
digits, optional dot, precision digits, then one verb character.  Returns the
matched tail and the remaining input. -/
def matchVerbTail (s : GoStr) : Option (GoStr × GoStr) :=
  let flags := s.takeWhile isFlagChar
  let s1 := s.dropWhile isFlagChar
  let d1 := s1.takeWhile isDigitChar
  let s2 := s1.dropWhile isDigitChar
  let dotRes : GoStr × GoStr :=
    match s2 with
    | '.' :: r => (['.'], r)
    | _ => ([], s2)
  let d2 := dotRes.2.takeWhile isDigitChar
  let s4 := dotRes.2.dropWhile isDigitChar
  match s4 with
  | [] => none
  | v :: r =>
    if isVerbChar v then some (flags ++ d1 ++ dotRes.1 ++ d2 ++ [v], r) else none

/-- The `FindAllString` scan: at each `%`, take the maximal-munch verb match
if any, else continue one character onward.  The fuel argument makes the
recursion structural; every step consumes at least one character of the
input (a verb match always consumes its conversion character), so fuel
`s.length` never runs out. -/
def verbScanAux : Nat → GoStr → List GoStr
  | 0, _ => []
  | _, [] => []
  | fuel + 1, c :: rest =>
    if c = '%' then
      match matchVerbTail rest with
      | some (body, rest') => ('%' :: body) :: verbScanAux fuel rest'
      | none => verbScanAux fuel rest
    else verbScanAux fuel rest

def verbScan (s : GoStr) : List GoStr := verbScanAux s.length s

/-- `collector.extractFormatVerbs`: trim surrounding quotes, then scan. -/
def extractFormatVerbs (formatStr : GoStr) : List GoStr :=
  verbScan (goTrimCut formatStr quoteCutset)


/-! ## Argument analysis (`collector.extractLogDetails`) -/

/-- The loop body of `extractLogDetails` over the arguments following the
message (argument `i` of the call is candidate `j = i - 1`); `fvs` is the
extracted format-verb list. -/
def buildArgs (fvs : List GoStr) : Nat → List GoExpr → List Argument
  | _, [] => []
  | j, arg :: rest =>
    let expr := formatExpr arg
    let varName := extractVarName expr
    let inferredType := inferType arg
    let formatVerb := fvs.getD j []
    let suggestedKey := generateFieldKey varName formatVerb inferredType
    { Index := j, Expression := expr, VarName := varName, Typ := inferredType,
      FormatVerb := formatVerb, SuggestedKey := suggestedKey } ::
      buildArgs fvs (j + 1) rest

/-- `collector.extractLogDetails`: message template plus analyzed arguments.
Takes the call's argument list (`call.Args`), the only part of the call the
Go function reads. -/
def extractLogDetails : List GoExpr → GoStr × List Argument
  | [] => ([], [])
  | firstArg :: rest =>
    match firstArg with
    | .basicLit .string v => (v, buildArgs (extractFormatVerbs v) 0 rest)
    | _ => (formatExpr firstArg, buildArgs [] 0 rest)

/-- `collector.formatArgumentDetails` serialization of one candidate:
`key(type)=expression[formatVerb]`. -/
def detailOf (a : Argument) : GoStr :=
  a.SuggestedKey ++ gs "(" ++ a.Typ ++ gs ")=" ++ a.Expression ++
    (if a.FormatVerb ≠ [] then gs "[" ++ a.FormatVerb ++ gs "]" else [])

/-- `collector.formatArgumentDetails`. -/
def formatArgumentDetails (args : List Argument) : GoStr :=
  if args = [] then [] else joinSep (gs "; ") (args.map detailOf)

/-! ## Transformer data model (`internal/transformer`) -/

/-- `transformer.LogUpdate` (one catalog row as loaded from the CSV). -/
structure LogUpdate where
  ID : GoStr
  FilePath : GoStr
  Line : Int
  Column : Int
  OriginalCall : GoStr
  LogLevel : GoStr
  MessageTemplate : GoStr
  ArgumentDetails : GoStr
  NewCall : GoStr
  NewMessage : GoStr
  StructuredFields : GoStr
deriving DecidableEq, Repr

/-- `transformer.FieldMapping`; the Go field `Type` is spelled `Typ`. -/
structure FieldMapping where
  Key : GoStr
  Expression : GoStr
  Typ : GoStr
deriving DecidableEq, Repr

/-- `transformer.TemplateConfig`. -/
structure TemplateConfig where
  Style : GoStr
  LoggerVar : GoStr
  Template : GoStr
deriving DecidableEq, Repr

/-- The data handed to the custom template
(`map[string]interface{}` in `generateCustomCall`). -/
structure TemplateData where
  Logger : GoStr
  Level : GoStr
  Message : GoStr
  Fields : List FieldMapping
deriving DecidableEq, Repr

/-- Abstract interface to stdlib `text/template` `Parse`+`Execute`
(serialization boundary): given the template string and the data, either the
rendered text or an error. -/
abbrev TmplEngine := GoStr → TemplateData → Except GoStr GoStr

/-- Abstract interface to stdlib `encoding/json` unmarshalling of the
`StructuredFields` column into `[]FieldMapping` (serialization boundary):
`none` models an unmarshal error. -/
abbrev JsonParse := GoStr → Option (List FieldMapping)

/-- `transformer.parseSimpleFields` body applied to one segment; `none`
models the `continue` branches. -/
def parseSimplePart (part0 : GoStr) : Option FieldMapping :=
  let part := goTrimSpace part0
  if part = [] then none
  else if goContainsSub part (gs "=") then
    let kv := splitAtFirst '=' part
    some ⟨goTrimSpace kv.1, goTrimSpace kv.2, gs "unknown"⟩
  else if goContainsSub part (gs ":") then
    let kv := splitAtFirst ':' part
    some ⟨goTrimSpace kv.1, goTrimSpace kv.2, gs "unknown"⟩
  else some ⟨part, part, gs "unknown"⟩

/-- `transformer.parseSimpleFields`: split on `;`, falling back to `,` when
that yields a single segment. -/
def parseSimpleFields (fieldsStr : GoStr) : List FieldMapping :=
  let parts := splitOnChar ';' fieldsStr
  let parts := if parts.length = 1 then splitOnChar ',' fieldsStr else parts
  parts.filterMap parseSimplePart

/-- `transformer.autoGenerateFieldsFromArguments` body applied to one
`;`-separated segment of `ArgumentDetails`; `none` models the `continue`
branches.  `charIdx` models `strings.Index` (`none` = `-1`). -/
def parseArgDetail (part0 : GoStr) : Option FieldMapping :=
  let part := goTrimSpace part0
  if part = [] then none
  else
    match charIdx '(' part with
    | none => none
    | some openParen =>
      let key := goTrimSpace (part.take openParen)
      match charIdx ')' part with
      | none => none
      | some closeParen =>
        if closeParen ≤ openParen then none
        else
          let typ := goTrimSpace ((part.drop (openParen + 1)).take (closeParen - openParen - 1))
          match charIdx '=' part with
          | none => none
          | some equals =>
            if equals ≤ closeParen then none
            else
              let exprPart := goTrimSpace (part.drop (equals + 1))
              let expr :=
                match charIdx '[' exprPart with
                | some openBracket => goTrimSpace (exprPart.take openBracket)
                | none => exprPart
              some ⟨key, expr, typ⟩

/-- `transformer.autoGenerateFieldsFromArguments`. -/
def autoGenerateFieldsFromArguments (argumentDetails : GoStr) : List FieldMapping :=
  (splitOnChar ';' argumentDetails).filterMap parseArgDetail

/-- `transformer.getZapFieldFunc`. -/
def getZapFieldFunc (typ : GoStr) : GoStr :=
  if typ = gs "string" then gs "String"
  else if typ = gs "int" then gs "Int"
  else if typ = gs "bool" then gs "Bool"
  else if typ = gs "error" then gs "Error"
  else gs "Any"

/-- `transformer.getZerologFieldFunc`. -/
def getZerologFieldFunc (typ : GoStr) : GoStr :=
  if typ = gs "string" then gs "Str"
  else if typ = gs "int" then gs "Int"
  else if typ = gs "bool" then gs "Bool"
  else if typ = gs "error" then gs "Err"
  else gs "Interface"

/-- `transformer.generateSlogCall`. -/
def generateSlogCall (loggerVar level message : GoStr) (fields : List FieldMapping) : GoStr :=
  let levelFunc := goToLower level
  let levelFunc := if levelFunc = gs "warning" then gs "warn" else levelFunc
  let parts :=
    (loggerVar ++ gs "." ++ levelFunc ++ gs "(\"" ++ message ++ gs "\"") ::
      fields.map (fun f =>
        gs "slog.Any(\"" ++ f.Key ++ gs "\", " ++ f.Expression ++ gs ")")
  joinSep (gs ", ") parts ++ gs ")"

/-- `transformer.generateZapCall`. -/
def generateZapCall (loggerVar level message : GoStr) (fields : List FieldMapping) : GoStr :=
  let levelFunc := goTitle (goToLower level)
  let levelFunc := if levelFunc = gs "Warning" then gs "Warn" else levelFunc
  let parts :=
    (loggerVar ++ gs "." ++ levelFunc ++ gs "(\"" ++ message ++ gs "\"") ::
      fields.map (fun f =>
        gs "zap." ++ getZapFieldFunc f.Typ ++ gs "(\"" ++ f.Key ++ gs "\", " ++
          f.Expression ++ gs ")")
  joinSep (gs ", ") parts ++ gs ")"

/-- `transformer.generateZerologCall`. -/
def generateZerologCall (loggerVar level message : GoStr) (fields : List FieldMapping) : GoStr :=
  let levelFunc := goToLower level
  let levelFunc := if levelFunc = gs "warning" then gs "warn" else levelFunc
  let parts :=
    (loggerVar ++ gs "." ++ levelFunc ++ gs "()") ::
      fields.map (fun f =>
        getZerologFieldFunc f.Typ ++ gs "(\"" ++ f.Key ++ gs "\", " ++
          f.Expression ++ gs ")") ++
      [gs "Msg(\"" ++ message ++ gs "\")"]
  joinSep (gs ".") parts

/-- `transformer.generateLogrusCall`. -/
def generateLogrusCall (loggerVar level message : GoStr) (fields : List FieldMapping) : GoStr :=
  let levelFunc := goTitle (goToLower level)
  let levelFunc := if levelFunc = gs "Warning" then gs "Warn" else levelFunc
  if fields = [] then
    loggerVar ++ gs "." ++ levelFunc ++ gs "(\"" ++ message ++ gs "\")"
  else
    let fieldPairs := fields.map (fun f =>
      gs "\"" ++ f.Key ++ gs "\": " ++ f.Expression)
    loggerVar ++ gs ".WithFields(" ++ loggerVar ++ gs ".Fields\x7b" ++
      joinSep (gs ", ") fieldPairs ++ gs "\x7d)." ++ levelFunc ++
      gs "(\"" ++ message ++ gs "\")"

/-- `transformer.generateCustomCall`: delegate `Parse`+`Execute` to the
abstract template engine with the fixed variable contract. -/
def generateCustomCall (tmplEngine : TmplEngine)
    (tmplStr loggerVar level message : GoStr) (fields : List FieldMapping) :
    Except GoStr GoStr :=
  tmplEngine tmplStr ⟨loggerVar, level, message, fields⟩

/-- The field-resolution step of `transformer.generateStructuredLogCall`
(lines 246-255): structured override first, simple grammar on unmarshal
failure, auto-derivation only for an empty override. -/
def resolveFields (jsonParse : JsonParse) (structuredFields argumentDetails : GoStr)
    (autoMap : Bool) : List FieldMapping :=
  if structuredFields ≠ [] then
    match jsonParse structuredFields with
    | some fs => fs
    | none => parseSimpleFields structuredFields
  else if autoMap ∧ argumentDetails ≠ [] then
    autoGenerateFieldsFromArguments argumentDetails
  else []

/-- `transformer.generateStructuredLogCall`. -/
def generateStructuredLogCall (jsonParse : JsonParse) (tmplEngine : TmplEngine)
    (update : LogUpdate) (config : TemplateConfig) (autoMap : Bool) :
    Except GoStr GoStr :=
  let fields := resolveFields jsonParse update.StructuredFields update.ArgumentDetails autoMap
  let message := if update.NewMessage = [] then update.MessageTemplate else update.NewMessage
  let message := goTrimCut message quoteCutset
  if config.Style = gs "slog" then
    .ok (generateSlogCall config.LoggerVar update.LogLevel message fields)
  else if config.Style = gs "zap" then
    .ok (generateZapCall config.LoggerVar update.LogLevel message fields)
  else if config.Style = gs "zerolog" then
    .ok (generateZerologCall config.LoggerVar update.LogLevel message fields)
  else if config.Style = gs "logrus" then
    .ok (generateLogrusCall config.LoggerVar update.LogLevel message fields)
  else if config.Style = gs "custom" then
    generateCustomCall tmplEngine config.Template config.LoggerVar update.LogLevel message fields
  else
    .error (gs "unknown style: " ++ config.Style)


/-! ## Source patcher (`transformer.replaceCallExpr`, `transformFile`) -/

/-- One call expression of the re-parsed file, in document order: its
`token.Position` start and end coordinates (1-based, as produced by
`fset.Position`) and its `printer.Fprint` rendering (`formatCallExpr`). -/
structure CallSite where
  line : Int
  col : Int
  endLine : Int
  endCol : Int
  origText : GoStr
deriving DecidableEq, Repr

/-- `transformer.truncateCode`: collapse whitespace, cut to `maxLen`. -/
def truncateCode (code : GoStr) (maxLen : Nat) : GoStr :=
  let code := joinSep (gs " ") (goFields code)
  if code.length ≤ maxLen then code
  else code.take (maxLen - 3) ++ gs "..."

/-- `transformer.replaceCallExpr`: line-indexed span replacement against the
current `content`, using the (original-coordinate) start and end positions.
`lines[i]`-style accesses mirror Go slice indexing; all the claims below
evaluate it only in-range, where Lean's clamping take/drop and Go's
panicking slices agree. -/
def replaceCallExpr (startLine startCol endLine endCol : Int) (newCode : GoStr)
    (content : GoStr) : GoStr :=
  let lines := splitOnChar '\n' content
  if startLine > (lines.length : Int) ∨ endLine > (lines.length : Int) then content
  else if startLine = endLine then
    let line := lines.getD (startLine - 1).toNat []
    let before := line.take (startCol - 1).toNat
    let after := line.drop (endCol - 1).toNat
    joinSep (gs "\n") (lines.set (startLine - 1).toNat (before ++ newCode ++ after))
  else
    let firstLine := lines.getD (startLine - 1).toNat []
    let lastLine := lines.getD (endLine - 1).toNat []
    let before := firstLine.take (startCol - 1).toNat
    let after := lastLine.drop (endCol - 1).toNat
    let newLine := before ++ newCode ++ after
    joinSep (gs "\n") (lines.take (startLine - 1).toNat ++ [newLine] ++ lines.drop endLine.toNat)

/-- Per-file transformation state: the evolving content, the `modified`
flag, the printed old/new modification previews, and the per-entry
generation warnings. -/
structure FileResult where
  content : GoStr
  modified : Bool
  mods : List (GoStr × GoStr)
  warns : List GoStr
deriving DecidableEq, Repr

/-- Lookup in `transformFile`'s `updateMap`.  The Go map is keyed by the
`"line:column"` string (`%d:%d` formatting is injective, so the model
compares the coordinate pair directly); insertion iterates the update list
in order, so a later row with the same coordinates overwrites an earlier
one — hence the last match wins. -/
def lookupUpdate (updates : List LogUpdate) (l c : Int) : Option LogUpdate :=
  (updates.filter (fun u => u.Line = l ∧ u.Column = c)).getLast?

/-- The warning printed when an entry's generation fails. -/
def genWarning (id e : GoStr) : GoStr :=
  gs "Warning: failed to generate code for " ++ id ++ gs ": " ++ e

/-- The body of `transformFile`'s `ast.Inspect` callback for one call
expression. -/
def transformStep (jsonParse : JsonParse) (tmplEngine : TmplEngine)
    (updates : List LogUpdate) (config : TemplateConfig) (dryRun autoMap : Bool)
    (acc : FileResult) (call : CallSite) : FileResult :=
  match lookupUpdate updates call.line call.col with
  | none => acc
  | some update =>
    match generateStructuredLogCall jsonParse tmplEngine update config autoMap with
    | .error e => { acc with warns := acc.warns ++ [genWarning update.ID e] }
    | .ok newCode =>
      let acc := { acc with
        mods := acc.mods ++ [(truncateCode call.origText 80, truncateCode newCode 80)] }
      if dryRun then acc
      else
        { acc with
          content := replaceCallExpr call.line call.col call.endLine call.endCol
            newCode acc.content,
          modified := true }

/-- `transformer.transformFile`: walk the re-parsed file's call expressions
in document order, applying matched replacements against the evolving
content.  `calls` stands for the call expressions of the re-parsed tree
(with their original-content coordinates), `content` for the file's bytes;
reading, parsing and the final write are the I/O boundary.  The final write
happens iff the result's `modified` flag is set (which `transformStep` only
sets when `dryRun` is false). -/
def transformFile (jsonParse : JsonParse) (tmplEngine : TmplEngine)
    (calls : List CallSite) (updates : List LogUpdate) (config : TemplateConfig)
    (dryRun autoMap : Bool) (content : GoStr) : FileResult :=
  calls.foldl (transformStep jsonParse tmplEngine updates config dryRun autoMap)
    ⟨content, false, [], []⟩

/-! ## Run-level transform (`transformer.Transform`) -/

/-- The no-op-row filter of `Transform` (lines 63-67): a row is skipped when
`NewMessage` and `NewCall` are both empty, or both are unchanged from the
original message template and callee. -/
def isSkippedRow (u : LogUpdate) : Bool :=
  (u.NewMessage = [] ∧ u.NewCall = []) ∨
    (u.NewMessage = u.MessageTemplate ∧ u.NewCall = u.OriginalCall)

/-- `fileUpdates` grouping: updates that survive the filter, grouped by
`FilePath` preserving first-appearance order (Go's map iteration order is
unspecified, but per-file processing is independent, so an insertion-ordered
association list is a faithful determinization). -/
def groupByFile (updates : List LogUpdate) : List (GoStr × List LogUpdate) :=
  updates.foldl
    (fun acc u =>
      if acc.any (fun p => p.1 = u.FilePath) then
        acc.map (fun p => if p.1 = u.FilePath then (p.1, p.2 ++ [u]) else p)
      else acc ++ [(u.FilePath, [u])])
    []

/-- One source file as seen by a run: its path, the call expressions of its
parsed tree, and its content. -/
structure SrcFile where
  path : GoStr
  calls : List CallSite
  content : GoStr
deriving DecidableEq, Repr

/-- `transformer.Transform` after config and catalog loading: filter no-op
rows, group by file, and transform each file that has updates.  Files
without surviving updates are never read or touched (the Go loop iterates
only over `fileUpdates` keys); their result is their unchanged content. -/
def Transform (jsonParse : JsonParse) (tmplEngine : TmplEngine)
    (files : List SrcFile) (updates : List LogUpdate) (config : TemplateConfig)
    (dryRun autoMap : Bool) : List (GoStr × FileResult) :=
  let fileUpdates := groupByFile (updates.filter (fun u => ¬ isSkippedRow u))
  files.map (fun f =>
    match (fileUpdates.filter (fun p => p.1 = f.path)).head? with
    | none => (f.path, ⟨f.content, false, [], []⟩)
    | some (_, us) =>
      (f.path, transformFile jsonParse tmplEngine f.calls us config dryRun autoMap f.content))

/-! ## Catalog loading (`transformer.loadUpdates`) -/

/-- Decimal digit-string value (helper for the `strconv.Atoi` model). -/
def digitsToInt (ds : GoStr) : Int :=
  ds.foldl (fun acc c => acc * 10 + ((c.toNat : Int) - 48)) 0

/-- The unsigned core of the `strconv.Atoi` model: at least one decimal
digit and nothing else; the boolean is `false` on a syntax error, in which
case the returned value is 0 (as `Atoi` returns). -/
def atoiCore (ds : GoStr) : Int × Bool :=
  if ds ≠ [] ∧ ds.all isDigitChar then (digitsToInt ds, true) else (0, false)

/-- Model of Go `strconv.Atoi`: optional sign then digits.  64-bit range
clamping is not modelled; no claim involves out-of-range numerals. -/
def goAtoi (s : GoStr) : Int × Bool :=
  match s with
  | [] => atoiCore []
  | c :: r =>
    if c = '+' then atoiCore r
    else if c = '-' then (-(atoiCore r).1, (atoiCore r).2)
    else atoiCore (c :: r)

/-- The loop body of `loadUpdates` for one CSV record: `none` models the
"skipping malformed row" warning branch, `some` a loaded row.  The `Atoi`
errors on `Line` and `Column` are discarded (`line, _ :=`), silently
leaving 0 on a syntax error. -/
def parseRecord (record : List GoStr) : Option LogUpdate :=
  if record.length < 13 then none
  else some
    { ID := record.getD 0 []
      FilePath := record.getD 1 []
      Line := (goAtoi (record.getD 2 [])).1
      Column := (goAtoi (record.getD 3 [])).1
      OriginalCall := record.getD 5 []
      LogLevel := record.getD 6 []
      MessageTemplate := record.getD 7 []
      ArgumentDetails := record.getD 9 []
      NewCall := record.getD 10 []
      NewMessage := record.getD 11 []
      StructuredFields := record.getD 12 [] }

/-- `transformer.loadUpdates` on the parsed CSV records: fewer than two
records (header plus one row) is a fatal catalog error; otherwise each
non-header record either loads or produces a malformed-row warning. -/
def loadUpdates (records : List (List GoStr)) :
    Except GoStr (List LogUpdate × List GoStr) :=
  if records.length < 2 then .error (gs "CSV file is empty or has no data rows")
  else
    .ok ((records.drop 1).filterMap parseRecord,
      (records.drop 1).filterMap (fun r =>
        if r.length < 13 then some (gs "Warning: skipping malformed row") else none))


/-! ## Spec-side definitions (for refinement comparison)

These two definitions follow the wording of the specification (§4.3 / §6),
to be compared with the source-derived `parseSimpleFields` / `resolveFields`:
"segments separated by `;` (or `,` if no `;` present)", each segment a
`key=expr` / `key:expr` pair. -/

/-- Spec wording of the simple field grammar: split on `;` when a `;` is
present, else on `,`. -/
def parseSimpleFieldsSpec (s : GoStr) : List FieldMapping :=
  let segs := if goContainsSub s (gs ";") then splitOnChar ';' s else splitOnChar ',' s
  segs.filterMap parseSimplePart

/-- Spec wording of the field-resolution precedence: a non-empty override
that unmarshals is used verbatim; a non-empty override that does not is
reinterpreted with the simple grammar; an empty override falls through to
auto-derivation (when enabled and candidates exist), else zero fields. -/
def resolveFieldsSpec (jsonParse : JsonParse) (structuredFields argumentDetails : GoStr)
    (autoMap : Bool) : List FieldMapping :=
  if structuredFields ≠ [] then
    match jsonParse structuredFields with
    | some fs => fs
    | none => parseSimpleFieldsSpec structuredFields
  else if autoMap ∧ argumentDetails ≠ [] then
    autoGenerateFieldsFromArguments argumentDetails
  else []

/-! ## Round-trip side conditions for `ArgumentDetails` (claim C6)

`formatArgumentDetails` serializes a candidate as `key(type)=expr[verb]` and
`autoGenerateFieldsFromArguments` re-parses by searching for the *first*
`(`, `)`, `=` and `[`; the round trip therefore requires the serialized
pieces not to contain the delimiter characters, nor surrounding whitespace
(segments are whitespace-trimmed when parsed back). -/

/-- A candidate whose serialization `key(type)=expr[verb]` parses back to
exactly (key, type, expr). -/
def RoundTrippable (a : Argument) : Prop :=
  ('(' ∉ a.SuggestedKey) ∧ (')' ∉ a.SuggestedKey) ∧ ('=' ∉ a.SuggestedKey) ∧
    (';' ∉ a.SuggestedKey) ∧ goTrimSpace a.SuggestedKey = a.SuggestedKey ∧
  (')' ∉ a.Typ) ∧ ('=' ∉ a.Typ) ∧ (';' ∉ a.Typ) ∧ goTrimSpace a.Typ = a.Typ ∧
  ('[' ∉ a.Expression) ∧ (';' ∉ a.Expression) ∧
    goTrimSpace a.Expression = a.Expression ∧
  (';' ∉ a.FormatVerb)

instance (a : Argument) : Decidable (RoundTrippable a) := by
  unfold RoundTrippable; infer_instance

/-! ## Concrete inputs used by counterexamples and witnesses -/

/-- A slog-style configuration with logger variable `log`. -/
def slogCfg : TemplateConfig := ⟨gs "slog", gs "log", []⟩

/-- A JSON parser stub that always fails to unmarshal (the override columns
in the scenarios below are empty or non-JSON). -/
def noJson : JsonParse := fun _ => none

/-- A JSON parser stub that succeeds with a fixed field list (exercising the
structured-override branch). -/
def jsonSome : JsonParse := fun _ => some [⟨gs "a", gs "b", gs "c"⟩]

/-- A template engine stub; never reached in the scenarios that use it. -/
def noTmpl : TmplEngine := fun _ _ => .error []

/-- Two matched calls on one line: `f(1)` at columns 1-4 and `g(2)` at
columns 7-10 of the single-line file `f(1); g(2)`. -/
def c1calls : List CallSite :=
  [⟨1, 1, 1, 5, gs "f(1)"⟩, ⟨1, 7, 1, 11, gs "g(2)"⟩]

/-- Catalog rows matching the two calls of `c1calls`, with new messages `a`
and `b`. -/
def c1updates : List LogUpdate :=
  [{ ID := gs "LOG-0001", FilePath := gs "main.go", Line := 1, Column := 1,
     OriginalCall := gs "f", LogLevel := gs "Info", MessageTemplate := gs "\"x\"",
     ArgumentDetails := [], NewCall := [], NewMessage := gs "a", StructuredFields := [] },
   { ID := gs "LOG-0002", FilePath := gs "main.go", Line := 1, Column := 7,
     OriginalCall := gs "g", LogLevel := gs "Info", MessageTemplate := gs "\"y\"",
     ArgumentDetails := [], NewCall := [], NewMessage := gs "b", StructuredFields := [] }]

/-- The single-line file content for the two-edits-on-one-line scenario. -/
def c1content : GoStr := gs "f(1); g(2)"

/-- A freshly scanned, unedited catalog: `NewCall` and `NewMessage` empty
exactly as `parseFile` creates them. -/
def c4updates : List LogUpdate :=
  [{ ID := gs "LOG-0001", FilePath := gs "main.go", Line := 1, Column := 1,
     OriginalCall := gs "f", LogLevel := gs "Info", MessageTemplate := gs "\"x\"",
     ArgumentDetails := [], NewCall := [], NewMessage := [], StructuredFields := [] }]

/-- The catalog row of the `log.Printf("error: %v", err)` scenario, with
`NewMessage` set and everything else as the scanner collected it. -/
def c8update : LogUpdate :=
  { ID := gs "LOG-0001", FilePath := gs "main.go", Line := 10, Column := 2,
    OriginalCall := gs "log.Printf", LogLevel := gs "Info",
    MessageTemplate := gs "\"error: %v\"", ArgumentDetails := gs "error(error)=err[%v]",
    NewCall := [], NewMessage := gs "Failed to process request", StructuredFields := [] }

/-- The analyzer output for `log.Printf("%v", getUser())`: a call-expression
argument, whose suggested key ends in `()`. -/
def c6args : List Argument :=
  (extractLogDetails [.basicLit .string (gs "\"%v\""), .call (.ident (gs "getUser"))]).2

/-- The analyzer candidate for the `err` argument of
`log.Printf("error: %v", err)` — round-trippable through the catalog. -/
def c6goodArg : Argument :=
  { Index := 0, Expression := gs "err", VarName := gs "err", Typ := gs "error",
    FormatVerb := gs "%v", SuggestedKey := gs "error" }

/-- A 14-column catalog record whose `Line` cell is not a numeral but whose
`Column` cell is `7`. -/
def c10record : List GoStr :=
  [gs "LOG-0007", gs "main.go", gs "abc", gs "7", gs "main", gs "log.Printf",
   gs "Info", gs "\"m\"", gs "1", gs "error(error)=err[%v]", [],
   gs "New message", [], []]

/-- A configuration with an unknown style tag. -/
def c3cfg : TemplateConfig := ⟨gs "json", gs "log", []⟩

/-- A custom-style configuration whose template references an undefined
variable. -/
def c9cfg : TemplateConfig := ⟨gs "custom", gs "log", gs "\x7b\x7b$undef\x7d\x7d"⟩

/-- A template engine behaving as `text/template` does on `c9cfg.Template`:
parsing fails with an undefined-variable error. -/
def c9engine : TmplEngine := fun _ _ => .error (gs "undefined variable \"$undef\"")

/-! # Helper lemmas -/

theorem splitOnChar_ne_nil (sep : Char) (s : GoStr) : splitOnChar sep s ≠ [] := by
  induction s with
  | nil => simp [splitOnChar]
  | cons c r ih =>
    unfold splitOnChar
    by_cases h : c = sep
    · simp [h]
    · simp only [h, if_false]
      cases hs : splitOnChar sep r <;> simp

theorem splitOnChar_of_not_mem (sep : Char) (s : GoStr) (h : sep ∉ s) :
    splitOnChar sep s = [s] := by
  induction s with
  | nil => rfl
  | cons c r ih =>
    have hc : ¬ c = sep := fun hh => h (hh ▸ List.mem_cons_self c r)
    have hr : sep ∉ r := fun hm => h (List.mem_cons_of_mem _ hm)
    unfold splitOnChar
    simp only [hc, if_false]
    rw [ih hr]

theorem splitOnChar_cons_ne (sep c : Char) (r : GoStr) (h : ¬ c = sep) :
    splitOnChar sep (c :: r) =
      match splitOnChar sep r with
      | [] => [[c]]
      | s :: ss => (c :: s) :: ss := by
  conv_lhs => rw [splitOnChar]
  simp [h]

theorem splitOnChar_append_sep (sep : Char) (s t : GoStr) (h : sep ∉ s) :
    splitOnChar sep (s ++ sep :: t) = s :: splitOnChar sep t := by
  induction s with
  | nil => simp [splitOnChar]
  | cons c r ih =>
    have hc : ¬ c = sep := fun hh => h (hh ▸ List.mem_cons_self c r)
    have hr : sep ∉ r := fun hm => h (List.mem_cons_of_mem _ hm)
    rw [List.cons_append, splitOnChar_cons_ne sep c _ hc, ih hr]

theorem splitOnChar_length_eq_one (sep : Char) (s : GoStr) :
    (splitOnChar sep s).length = 1 ↔ sep ∉ s := by
  induction s with
  | nil => simp [splitOnChar]
  | cons c r ih =>
    unfold splitOnChar
    by_cases h : c = sep
    · subst h
      have := splitOnChar_ne_nil c r
      cases hs : splitOnChar c r with
      | nil => exact absurd hs this
      | cons a as => simp
    · simp only [h, if_false]
      cases hs : splitOnChar sep r with
      | nil => exact absurd hs (splitOnChar_ne_nil _ _)
      | cons a as =>
        rw [hs] at ih
        simp only [List.length_cons, List.mem_cons] at ih ⊢
        constructor
        · intro hlen
          rintro (heq | hmem)
          · exact h heq.symm
          · exact (ih.mp hlen) hmem
        · intro hnm
          exact ih.mpr (fun hm => hnm (Or.inr hm))

theorem goContainsSub_singleton (s : GoStr) (c : Char) :
    goContainsSub s [c] = true ↔ c ∈ s := by
  induction s with
  | nil => simp [goContainsSub, leadsWith]
  | cons d r ih =>
    unfold goContainsSub
    by_cases h : c = d
    · subst h
      simp [leadsWith]
    · have hlw : leadsWith [c] (d :: r) = false := by
        simp [leadsWith]
        intro hh
        exact absurd hh h
      simp [hlw, ih, h]

theorem charIdx_not_mem (c : Char) (s : GoStr) (h : c ∉ s) : charIdx c s = none := by
  induction s with
  | nil => rfl
  | cons d r ih =>
    have hd : ¬ d = c := fun hh => h (hh ▸ List.mem_cons_self d r)
    unfold charIdx
    simp [hd, ih (fun hm => h (List.mem_cons_of_mem _ hm))]

theorem charIdx_cons_ne (c d : Char) (r : GoStr) (h : ¬ d = c) :
    charIdx c (d :: r) = (charIdx c r).map (· + 1) := by
  conv_lhs => rw [charIdx]
  simp [h]

theorem charIdx_append_of_not_mem (c : Char) (s t : GoStr) (h : c ∉ s) :
    charIdx c (s ++ t) = (charIdx c t).map (· + s.length) := by
  induction s with
  | nil =>
    simp only [List.nil_append, List.length_nil]
    cases charIdx c t <;> simp
  | cons d r ih =>
    have hd : ¬ d = c := fun hh => h (hh ▸ List.mem_cons_self d r)
    have hr : c ∉ r := fun hm => h (List.mem_cons_of_mem _ hm)
    rw [List.cons_append, charIdx_cons_ne c d _ hd, ih hr, Option.map_map]
    cases charIdx c t with
    | none => rfl
    | some a => simp only [Option.map_some, Function.comp, List.length_cons]; congr 1

theorem dropWhile_len_le (p : Char → Bool) (l : GoStr) :
    (l.dropWhile p).length ≤ l.length := by
  induction l with
  | nil => simp
  | cons c r ih => by_cases h : p c <;> simp [List.dropWhile_cons, h] <;> omega

theorem dropWhile_eq_self_of_len (p : Char → Bool) (l : GoStr)
    (h : (l.dropWhile p).length = l.length) : l.dropWhile p = l := by
  induction l with
  | nil => rfl
  | cons c r ih =>
    by_cases hp : p c
    · exfalso
      rw [List.dropWhile_cons, if_pos hp] at h
      have := dropWhile_len_le p r
      simp at h
      omega
    · rw [List.dropWhile_cons, if_neg hp]

theorem dropWhile_id_head (p : Char → Bool) (c : Char) (r : GoStr)
    (h : (c :: r).dropWhile p = c :: r) : p c = false := by
  by_contra hb
  have hp : p c = true := by simpa using hb
  rw [List.dropWhile_cons, if_pos hp] at h
  have hle := dropWhile_len_le p r
  have hl := congrArg List.length h
  simp at hl
  omega

theorem goTrimSpace_parts (s : GoStr) (h : goTrimSpace s = s) :
    s.dropWhile isWS = s ∧ s.reverse.dropWhile isWS = s.reverse := by
  unfold goTrimSpace at h
  have hlen := congrArg List.length h
  simp only [List.length_reverse] at hlen
  have hle2 : ((s.dropWhile isWS).reverse.dropWhile isWS).length ≤
      (s.dropWhile isWS).length := by
    have := dropWhile_len_le isWS (s.dropWhile isWS).reverse
    simpa [List.length_reverse] using this
  have hle1 := dropWhile_len_le isWS s
  have e1 : (s.dropWhile isWS).length = s.length := by omega
  have hd1 : s.dropWhile isWS = s := dropWhile_eq_self_of_len _ _ e1
  refine ⟨hd1, ?_⟩
  rw [hd1] at h
  have := congrArg List.reverse h
  simpa using this

theorem goTrimSpace_of_parts (s : GoStr) (h1 : s.dropWhile isWS = s)
    (h2 : s.reverse.dropWhile isWS = s.reverse) : goTrimSpace s = s := by
  unfold goTrimSpace
  rw [h1, h2, List.reverse_reverse]

theorem goTrimSpace_eq_self (s : GoStr)
    (hh : ∀ c, s.head? = some c → isWS c = false)
    (hl : ∀ c, s.getLast? = some c → isWS c = false) :
    goTrimSpace s = s := by
  apply goTrimSpace_of_parts
  · cases s with
    | nil => rfl
    | cons c r => rw [List.dropWhile_cons, if_neg (by simp [hh c rfl])]
  · cases hrev : s.reverse with
    | nil => rfl
    | cons c r =>
      have hlast : s.getLast? = some c := by
        rw [← List.head?_reverse, hrev]; rfl
      rw [List.dropWhile_cons, if_neg (by simp [hl c hlast])]

theorem head_not_ws (s : GoStr) (h : goTrimSpace s = s) (c : Char) (r : GoStr)
    (hs : s = c :: r) : isWS c = false := by
  have hp := (goTrimSpace_parts s h).1
  rw [hs] at hp
  exact dropWhile_id_head _ _ _ hp

theorem last_not_ws (s : GoStr) (h : goTrimSpace s = s) (c : Char) (r : GoStr)
    (hs : s.reverse = c :: r) : isWS c = false := by
  have hp := (goTrimSpace_parts s h).2
  rw [hs] at hp
  exact dropWhile_id_head _ _ _ hp

theorem goTrimSpace_cons_space (x : GoStr) : goTrimSpace (' ' :: x) = goTrimSpace x := by
  unfold goTrimSpace
  rw [List.dropWhile_cons, if_pos (by simp [isWS])]

/-! ## Fold lemmas for `transformFile` -/

theorem transformStep_none (jp : JsonParse) (te : TmplEngine) (updates : List LogUpdate)
    (config : TemplateConfig) (dryRun am : Bool) (acc : FileResult) (call : CallSite)
    (hl : lookupUpdate updates call.line call.col = none) :
    transformStep jp te updates config dryRun am acc call = acc := by
  unfold transformStep
  rw [hl]

theorem transformStep_error (jp : JsonParse) (te : TmplEngine) (updates : List LogUpdate)
    (config : TemplateConfig) (dryRun am : Bool) (acc : FileResult) (call : CallSite)
    (u : LogUpdate) (e : GoStr)
    (hl : lookupUpdate updates call.line call.col = some u)
    (hg : generateStructuredLogCall jp te u config am = .error e) :
    transformStep jp te updates config dryRun am acc call =
      { acc with warns := acc.warns ++ [genWarning u.ID e] } := by
  unfold transformStep
  rw [hl]
  simp [hg]

theorem transformStep_ok_dry (jp : JsonParse) (te : TmplEngine) (updates : List LogUpdate)
    (config : TemplateConfig) (am : Bool) (acc : FileResult) (call : CallSite)
    (u : LogUpdate) (newCode : GoStr)
    (hl : lookupUpdate updates call.line call.col = some u)
    (hg : generateStructuredLogCall jp te u config am = .ok newCode) :
    transformStep jp te updates config true am acc call =
      { acc with mods := acc.mods ++
          [(truncateCode call.origText 80, truncateCode newCode 80)] } := by
  unfold transformStep
  rw [hl]
  simp [hg]

theorem transformStep_ok_wet (jp : JsonParse) (te : TmplEngine) (updates : List LogUpdate)
    (config : TemplateConfig) (am : Bool) (acc : FileResult) (call : CallSite)
    (u : LogUpdate) (newCode : GoStr)
    (hl : lookupUpdate updates call.line call.col = some u)
    (hg : generateStructuredLogCall jp te u config am = .ok newCode) :
    transformStep jp te updates config false am acc call =
      { content := replaceCallExpr call.line call.col call.endLine call.endCol
          newCode acc.content,
        modified := true,
        mods := acc.mods ++ [(truncateCode call.origText 80, truncateCode newCode 80)],
        warns := acc.warns } := by
  unfold transformStep
  rw [hl]
  simp [hg]

theorem foldl_dryRun (jp : JsonParse) (te : TmplEngine) (updates : List LogUpdate)
    (config : TemplateConfig) (am : Bool) (calls : List CallSite) :
    ∀ acc : FileResult,
      (calls.foldl (transformStep jp te updates config true am) acc).content = acc.content ∧
      (calls.foldl (transformStep jp te updates config true am) acc).modified = acc.modified ∧
      (calls.foldl (transformStep jp te updates config true am) acc).mods =
        acc.mods ++ calls.filterMap (fun call =>
          match lookupUpdate updates call.line call.col with
          | none => none
          | some u =>
            match generateStructuredLogCall jp te u config am with
            | .error _ => none
            | .ok newCode =>
              some (truncateCode call.origText 80, truncateCode newCode 80)) := by
  induction calls with
  | nil => intro acc; simp
  | cons call calls ih =>
    intro acc
    rw [List.foldl_cons, List.filterMap_cons]
    cases hl : lookupUpdate updates call.line call.col with
    | none =>
      rw [transformStep_none jp te updates config true am acc call hl]
      simpa [hl] using ih acc
    | some u =>
      cases hg : generateStructuredLogCall jp te u config am with
      | error e =>
        rw [transformStep_error jp te updates config true am acc call u e hl hg]
        have h := ih { acc with warns := acc.warns ++ [genWarning u.ID e] }
        simpa [hl, hg] using h
      | ok newCode =>
        rw [transformStep_ok_dry jp te updates config am acc call u newCode hl hg]
        have h := ih { acc with mods := acc.mods ++
          [(truncateCode call.origText 80, truncateCode newCode 80)] }
        simpa [hl, hg] using h

theorem transformStep_components (jp : JsonParse) (te : TmplEngine)
    (updates : List LogUpdate) (config : TemplateConfig) (dryRun am : Bool)
    (call : CallSite) (a b : FileResult) (h1 : a.content = b.content)
    (h2 : a.modified = b.modified) (h3 : a.mods = b.mods) :
    (transformStep jp te updates config dryRun am a call).content =
      (transformStep jp te updates config dryRun am b call).content ∧
    (transformStep jp te updates config dryRun am a call).modified =
      (transformStep jp te updates config dryRun am b call).modified ∧
    (transformStep jp te updates config dryRun am a call).mods =
      (transformStep jp te updates config dryRun am b call).mods := by
  cases hl : lookupUpdate updates call.line call.col with
  | none =>
    rw [transformStep_none jp te updates config dryRun am a call hl,
      transformStep_none jp te updates config dryRun am b call hl]
    exact ⟨h1, h2, h3⟩
  | some u =>
    cases hg : generateStructuredLogCall jp te u config am with
    | error e =>
      rw [transformStep_error jp te updates config dryRun am a call u e hl hg,
        transformStep_error jp te updates config dryRun am b call u e hl hg]
      exact ⟨h1, h2, h3⟩
    | ok newCode =>
      cases dryRun with
      | true =>
        rw [transformStep_ok_dry jp te updates config am a call u newCode hl hg,
          transformStep_ok_dry jp te updates config am b call u newCode hl hg]
        simp [h1, h2, h3]
      | false =>
        rw [transformStep_ok_wet jp te updates config am a call u newCode hl hg,
          transformStep_ok_wet jp te updates config am b call u newCode hl hg]
        simp [h1, h2, h3]

theorem foldl_components_congr (jp : JsonParse) (te : TmplEngine)
    (updates : List LogUpdate) (config : TemplateConfig) (dryRun am : Bool)
    (calls : List CallSite) :
    ∀ a b : FileResult, a.content = b.content → a.modified = b.modified →
      a.mods = b.mods →
      (calls.foldl (transformStep jp te updates config dryRun am) a).content =
        (calls.foldl (transformStep jp te updates config dryRun am) b).content ∧
      (calls.foldl (transformStep jp te updates config dryRun am) a).modified =
        (calls.foldl (transformStep jp te updates config dryRun am) b).modified ∧
      (calls.foldl (transformStep jp te updates config dryRun am) a).mods =
        (calls.foldl (transformStep jp te updates config dryRun am) b).mods := by
  induction calls with
  | nil => intro a b h1 h2 h3; exact ⟨h1, h2, h3⟩
  | cons call calls ih =>
    intro a b h1 h2 h3
    rw [List.foldl_cons, List.foldl_cons]
    obtain ⟨g1, g2, g3⟩ :=
      transformStep_components jp te updates config dryRun am call a b h1 h2 h3
    exact ih _ _ g1 g2 g3

theorem foldl_warns_mono (jp : JsonParse) (te : TmplEngine)
    (updates : List LogUpdate) (config : TemplateConfig) (dryRun am : Bool)
    (calls : List CallSite) :
    ∀ acc : FileResult, ∃ t,
      (calls.foldl (transformStep jp te updates config dryRun am) acc).warns =
        acc.warns ++ t := by
  induction calls with
  | nil => intro acc; exact ⟨[], by simp⟩
  | cons call calls ih =>
    intro acc
    rw [List.foldl_cons]
    cases hl : lookupUpdate updates call.line call.col with
    | none =>
      rw [transformStep_none jp te updates config dryRun am acc call hl]
      exact ih acc
    | some u =>
      cases hg : generateStructuredLogCall jp te u config am with
      | error e =>
        rw [transformStep_error jp te updates config dryRun am acc call u e hl hg]
        obtain ⟨t, ht⟩ := ih { acc with warns := acc.warns ++ [genWarning u.ID e] }
        exact ⟨genWarning u.ID e :: t, by simpa using ht⟩
      | ok newCode =>
        cases dryRun with
        | true =>
          rw [transformStep_ok_dry jp te updates config am acc call u newCode hl hg]
          simpa using ih { acc with mods := acc.mods ++
            [(truncateCode call.origText 80, truncateCode newCode 80)] }
        | false =>
          rw [transformStep_ok_wet jp te updates config am acc call u newCode hl hg]
          simpa using ih _

theorem gen_error_of_unknown_style (jp : JsonParse) (te : TmplEngine) (u : LogUpdate)
    (config : TemplateConfig) (am : Bool)
    (h1 : config.Style ≠ gs "slog") (h2 : config.Style ≠ gs "zap")
    (h3 : config.Style ≠ gs "zerolog") (h4 : config.Style ≠ gs "logrus")
    (h5 : config.Style ≠ gs "custom") :
    generateStructuredLogCall jp te u config am =
      .error (gs "unknown style: " ++ config.Style) := by
  unfold generateStructuredLogCall
  simp [h1, h2, h3, h4, h5]

theorem foldl_allError (jp : JsonParse) (te : TmplEngine) (updates : List LogUpdate)
    (config : TemplateConfig) (dryRun am : Bool) (calls : List CallSite)
    (herr : ∀ u : LogUpdate, ∃ e, generateStructuredLogCall jp te u config am = .error e) :
    ∀ acc : FileResult,
      (calls.foldl (transformStep jp te updates config dryRun am) acc).content =
        acc.content ∧
      (calls.foldl (transformStep jp te updates config dryRun am) acc).modified =
        acc.modified ∧
      (calls.foldl (transformStep jp te updates config dryRun am) acc).mods = acc.mods := by
  induction calls with
  | nil => intro acc; exact ⟨rfl, rfl, rfl⟩
  | cons call calls ih =>
    intro acc
    rw [List.foldl_cons]
    cases hl : lookupUpdate updates call.line call.col with
    | none =>
      rw [transformStep_none jp te updates config dryRun am acc call hl]
      exact ih acc
    | some u =>
      obtain ⟨e, hg⟩ := herr u
      rw [transformStep_error jp te updates config dryRun am acc call u e hl hg]
      simpa using ih { acc with warns := acc.warns ++ [genWarning u.ID e] }

/-- C2: in dry-run mode `transformFile` leaves the content byte-identical and
never sets the `modified` flag that gates the final write — regardless of
which call sites match and which entries fail generation — while still
recording, for every matched entry whose generation succeeds, the truncated
original call text and its generated replacement. -/
theorem c2_dry_run_never_mutates (jp : JsonParse) (te : TmplEngine)
    (calls : List CallSite) (updates : List LogUpdate) (config : TemplateConfig)
    (am : Bool) (content : GoStr) :
    (transformFile jp te calls updates config true am content).content = content ∧
    (transformFile jp te calls updates config true am content).modified = false ∧
    (transformFile jp te calls updates config true am content).mods =
      calls.filterMap (fun call =>
        match lookupUpdate updates call.line call.col with
        | none => none
        | some u =>
          match generateStructuredLogCall jp te u config am with
          | .error _ => none
          | .ok newCode =>
            some (truncateCode call.origText 80, truncateCode newCode 80)) := by
  unfold transformFile
  simpa using foldl_dryRun jp te updates config am calls ⟨content, false, [], []⟩

/-- C3 (amended): a style tag outside the known set does not abort the run;
instead every matched entry's generation fails with the unknown-style error,
reported as a per-entry warning and skipped, so no file's content changes, no
file is marked modified, and no modification is recorded. -/
theorem c3_unknown_style_warns_and_skips (jp : JsonParse) (te : TmplEngine)
    (files : List SrcFile) (updates : List LogUpdate) (config : TemplateConfig)
    (dryRun am : Bool)
    (h1 : config.Style ≠ gs "slog") (h2 : config.Style ≠ gs "zap")
    (h3 : config.Style ≠ gs "zerolog") (h4 : config.Style ≠ gs "logrus")
    (h5 : config.Style ≠ gs "custom") :
    (Transform jp te files updates config dryRun am).map
        (fun pr => (pr.1, pr.2.content, pr.2.modified, pr.2.mods)) =
      files.map (fun f => (f.path, f.content, false, ([] : List (GoStr × GoStr)))) := by
  unfold Transform
  rw [List.map_map]
  apply List.map_congr_left
  intro f _
  simp only [Function.comp]
  split
  · rfl
  · rename_i fst us _
    have herr : ∀ u : LogUpdate, ∃ e,
        generateStructuredLogCall jp te u config am = .error e :=
      fun u => ⟨_, gen_error_of_unknown_style jp te u config am h1 h2 h3 h4 h5⟩
    have h := foldl_allError jp te us config dryRun am f.calls herr
      ⟨f.content, false, [], []⟩
    unfold transformFile
    simp only [Prod.mk.injEq]
    exact ⟨trivial, h.1, h.2.1, h.2.2⟩

/-- C3 (counterexample to the claim as stated): with the unknown style tag
`json` and a matched catalog entry, generation fails with the unknown-style
error, yet the transform does not abort with a fatal configuration error —
the entry is merely warned about and skipped, and the run completes with the
file untouched. -/
theorem c3_counterexample :
    generateStructuredLogCall noJson noTmpl (c1updates.getD 0 c8update) c3cfg true =
      .error (gs "unknown style: json") ∧
    transformFile noJson noTmpl c1calls c1updates c3cfg false true c1content =
      { content := c1content, modified := false, mods := [],
        warns := [genWarning (gs "LOG-0001") (gs "unknown style: json"),
                  genWarning (gs "LOG-0002") (gs "unknown style: json")] } := by
  constructor
  · rfl
  · rfl

/-- C3 witness for the amended theorem. -/
theorem c3_witness :
    c3cfg.Style ≠ gs "slog" ∧ c3cfg.Style ≠ gs "zap" ∧ c3cfg.Style ≠ gs "zerolog" ∧
    c3cfg.Style ≠ gs "logrus" ∧ c3cfg.Style ≠ gs "custom" ∧
    (Transform noJson noTmpl [⟨gs "main.go", c1calls, c1content⟩] c1updates c3cfg
        false true).map (fun pr => (pr.1, pr.2.content, pr.2.modified, pr.2.mods)) =
      [⟨gs "main.go", c1content, false, []⟩] := by
  refine ⟨by decide, by decide, by decide, by decide, by decide, ?_⟩
  exact c3_unknown_style_warns_and_skips noJson noTmpl
    [⟨gs "main.go", c1calls, c1content⟩] c1updates c3cfg false true
    (by decide) (by decide) (by decide) (by decide) (by decide)

/-- C4: a row with `NewMessage` and `NewCallee` both empty, or both unchanged
from the original message template and callee, is excluded by the `Transform`
filter; and since the scanner exports every fresh row with empty `NewCall`
and `NewMessage`, transforming with an unedited catalog filters out every
row, so no file's content changes and nothing is marked modified. -/
theorem c4_noop_catalog_changes_nothing (jp : JsonParse) (te : TmplEngine)
    (files : List SrcFile) (updates : List LogUpdate) (config : TemplateConfig)
    (dryRun am : Bool)
    (h : ∀ u ∈ updates, u.NewMessage = [] ∧ u.NewCall = []) :
    (∀ u : LogUpdate,
      ((u.NewMessage = [] ∧ u.NewCall = []) ∨
        (u.NewMessage = u.MessageTemplate ∧ u.NewCall = u.OriginalCall)) →
      isSkippedRow u = true) ∧
    Transform jp te files updates config dryRun am =
      files.map (fun f => (f.path, ⟨f.content, false, [], []⟩)) := by
  constructor
  · intro u hu
    unfold isSkippedRow
    rcases hu with ⟨h1, h2⟩ | ⟨h1, h2⟩ <;> simp [h1, h2]
  · have hfilter : updates.filter (fun u => ¬ isSkippedRow u) = [] := by
      rw [List.filter_eq_nil_iff]
      intro u hu
      obtain ⟨h1, h2⟩ := h u hu
      simp [isSkippedRow, h1, h2]
    unfold Transform
    rw [hfilter]
    rfl

/-- C4 witness. -/
theorem c4_witness :
    (∀ u ∈ c4updates, u.NewMessage = [] ∧ u.NewCall = []) ∧
    Transform noJson noTmpl [⟨gs "main.go", c1calls, c1content⟩] c4updates slogCfg
        false true =
      [(gs "main.go", ⟨c1content, false, [], []⟩)] := by
  refine ⟨by decide, ?_⟩
  exact (c4_noop_catalog_changes_nothing noJson noTmpl
    [⟨gs "main.go", c1calls, c1content⟩] c4updates slogCfg false true (by decide)).2

/-- C9: an entry whose generation fails (for instance a custom template that
references an undefined variable) is skipped with a warning and affects
nothing else: removing the failing call site from the walk yields the same
content, modified flag and modification list, and the failure is reported in
the warnings. -/
theorem c9_entry_failure_is_isolated (jp : JsonParse) (te : TmplEngine)
    (pre post : List CallSite) (cf : CallSite) (updates : List LogUpdate)
    (config : TemplateConfig) (dryRun am : Bool) (content : GoStr)
    (u : LogUpdate) (e : GoStr)
    (hu : lookupUpdate updates cf.line cf.col = some u)
    (hf : generateStructuredLogCall jp te u config am = .error e) :
    (transformFile jp te (pre ++ cf :: post) updates config dryRun am content).content =
      (transformFile jp te (pre ++ post) updates config dryRun am content).content ∧
    (transformFile jp te (pre ++ cf :: post) updates config dryRun am content).modified =
      (transformFile jp te (pre ++ post) updates config dryRun am content).modified ∧
    (transformFile jp te (pre ++ cf :: post) updates config dryRun am content).mods =
      (transformFile jp te (pre ++ post) updates config dryRun am content).mods ∧
    genWarning u.ID e ∈
      (transformFile jp te (pre ++ cf :: post) updates config dryRun am content).warns := by
  unfold transformFile
  rw [List.foldl_append, List.foldl_append, List.foldl_cons]
  set A := pre.foldl (transformStep jp te updates config dryRun am) ⟨content, false, [], []⟩
  rw [transformStep_error jp te updates config dryRun am A cf u e hu hf]
  have hcongr := foldl_components_congr jp te updates config dryRun am post
    { A with warns := A.warns ++ [genWarning u.ID e] } A rfl rfl rfl
  refine ⟨hcongr.1, hcongr.2.1, hcongr.2.2, ?_⟩
  obtain ⟨t, ht⟩ := foldl_warns_mono jp te updates config dryRun am post
    { A with warns := A.warns ++ [genWarning u.ID e] }
  rw [ht]
  simp

/-- C9 witness: a custom-style run whose template engine fails (undefined
template variable) on the single matched entry of `cf`, with another call
site in the same file. -/
theorem c9_witness :
    lookupUpdate c1updates 1 1 = some (c1updates.getD 0 c8update) ∧
    generateStructuredLogCall noJson c9engine (c1updates.getD 0 c8update) c9cfg true =
      .error (gs "undefined variable \"$undef\"") ∧
    ((transformFile noJson c9engine ([] ++ ⟨1, 1, 1, 5, gs "f(1)"⟩ ::
          [⟨1, 7, 1, 11, gs "g(2)"⟩]) c1updates c9cfg false true c1content).content =
        (transformFile noJson c9engine ([] ++ [⟨1, 7, 1, 11, gs "g(2)"⟩]) c1updates
          c9cfg false true c1content).content ∧
      (transformFile noJson c9engine ([] ++ ⟨1, 1, 1, 5, gs "f(1)"⟩ ::
          [⟨1, 7, 1, 11, gs "g(2)"⟩]) c1updates c9cfg false true c1content).modified =
        (transformFile noJson c9engine ([] ++ [⟨1, 7, 1, 11, gs "g(2)"⟩]) c1updates
          c9cfg false true c1content).modified ∧
      (transformFile noJson c9engine ([] ++ ⟨1, 1, 1, 5, gs "f(1)"⟩ ::
          [⟨1, 7, 1, 11, gs "g(2)"⟩]) c1updates c9cfg false true c1content).mods =
        (transformFile noJson c9engine ([] ++ [⟨1, 7, 1, 11, gs "g(2)"⟩]) c1updates
          c9cfg false true c1content).mods ∧
      genWarning (c1updates.getD 0 c8update).ID (gs "undefined variable \"$undef\"") ∈
        (transformFile noJson c9engine ([] ++ ⟨1, 1, 1, 5, gs "f(1)"⟩ ::
          [⟨1, 7, 1, 11, gs "g(2)"⟩]) c1updates c9cfg false true c1content).warns) := by
  refine ⟨by decide, by rfl, ?_⟩
  exact c9_entry_failure_is_isolated noJson c9engine [] [⟨1, 7, 1, 11, gs "g(2)"⟩]
    ⟨1, 1, 1, 5, gs "f(1)"⟩ c1updates c9cfg false true c1content
    (c1updates.getD 0 c8update) (gs "undefined variable \"$undef\"")
    (by decide) (by rfl)

theorem atoiCore_err (ds : GoStr) (h : (atoiCore ds).2 = false) : (atoiCore ds).1 = 0 := by
  unfold atoiCore at h ⊢
  split
  · rename_i hc
    rw [if_pos hc] at h
    simp at h
  · rfl

theorem goAtoi_err_val (s : GoStr) (h : (goAtoi s).2 = false) : (goAtoi s).1 = 0 := by
  unfold goAtoi at h ⊢
  cases s with
  | nil => exact atoiCore_err [] h
  | cons c r =>
    by_cases hp : c = '+'
    · simp only [hp, if_true] at h ⊢
      exact atoiCore_err r h
    · by_cases hm : c = '-'
      · simp only [hp, hm, if_false, if_true] at h ⊢
        rw [atoiCore_err r h]
        rfl
      · simp only [hp, hm, if_false] at h ⊢
        exact atoiCore_err (c :: r) h

theorem foldl_no_match (jp : JsonParse) (te : TmplEngine) (updates : List LogUpdate)
    (config : TemplateConfig) (dryRun am : Bool) (calls : List CallSite)
    (h : ∀ c ∈ calls, lookupUpdate updates c.line c.col = none) :
    ∀ acc : FileResult,
      calls.foldl (transformStep jp te updates config dryRun am) acc = acc := by
  induction calls with
  | nil => intro acc; rfl
  | cons call calls ih =>
    intro acc
    rw [List.foldl_cons,
      transformStep_none jp te updates config dryRun am acc call
        (h call (List.mem_cons_self call calls)),
      ih (fun c hc => h c (List.mem_cons_of_mem _ hc)) acc]

/-- C10 (amended): a catalog record with at least 13 columns whose `Line`
cell fails integer parsing is loaded silently — no malformed-row warning —
with that cell recorded as 0 (the other cell keeps its own parsed value);
and since every parsed call position is 1-based, such a row matches no call
site and leaves any file's content, modified flag, modifications and
warnings untouched. -/
theorem c10_bad_line_cell_never_matches (record : List GoStr)
    (h13 : 13 ≤ record.length)
    (hbad : (goAtoi (record.getD 2 [])).2 = false) :
    ∃ u : LogUpdate, parseRecord record = some u ∧ u.Line = 0 ∧
      (∀ hdr : List GoStr, loadUpdates [hdr, record] = .ok ([u], [])) ∧
      ∀ (jp : JsonParse) (te : TmplEngine) (calls : List CallSite)
        (config : TemplateConfig) (dryRun am : Bool) (content : GoStr),
        (∀ c ∈ calls, 1 ≤ c.line) →
        transformFile jp te calls [u] config dryRun am content =
          ⟨content, false, [], []⟩ := by
  have hnot : ¬ record.length < 13 := by omega
  refine ⟨_, by unfold parseRecord; rw [if_neg hnot], ?_, ?_, ?_⟩
  · exact goAtoi_err_val _ hbad
  · intro hdr
    unfold loadUpdates
    rw [if_neg (by simp)]
    simp [parseRecord, hnot]
  · intro jp te calls config dryRun am content hcalls
    unfold transformFile
    apply foldl_no_match
    intro c hc
    unfold lookupUpdate
    have : ∀ u ∈ [(parseRecord record).getD c8update], False → True := fun _ _ _ => trivial
    have hfil :
        ([{ ID := record.getD 0 [], FilePath := record.getD 1 [],
            Line := (goAtoi (record.getD 2 [])).1,
            Column := (goAtoi (record.getD 3 [])).1,
            OriginalCall := record.getD 5 [], LogLevel := record.getD 6 [],
            MessageTemplate := record.getD 7 [],
            ArgumentDetails := record.getD 9 [], NewCall := record.getD 10 [],
            NewMessage := record.getD 11 [],
            StructuredFields := record.getD 12 [] }] :
          List LogUpdate).filter (fun u => u.Line = c.line ∧ u.Column = c.col) = [] := by
      rw [List.filter_eq_nil_iff]
      intro u hu
      simp only [List.mem_singleton] at hu
      subst hu
      have hz := goAtoi_err_val _ hbad
      have hge := hcalls c hc
      simp only [hz, decide_eq_true_eq, not_and]
      intro hl
      omega
    rw [hfil]
    rfl

/-- C10 witness. -/
theorem c10_witness :
    13 ≤ c10record.length ∧ (goAtoi (c10record.getD 2 [])).2 = false ∧
    (∃ u : LogUpdate, parseRecord c10record = some u ∧ u.Line = 0 ∧
      (∀ hdr : List GoStr, loadUpdates [hdr, c10record] = .ok ([u], [])) ∧
      ∀ (jp : JsonParse) (te : TmplEngine) (calls : List CallSite)
        (config : TemplateConfig) (dryRun am : Bool) (content : GoStr),
        (∀ c ∈ calls, 1 ≤ c.line) →
        transformFile jp te calls [u] config dryRun am content =
          ⟨content, false, [], []⟩) :=
  ⟨by decide, by decide,
    c10_bad_line_cell_never_matches c10record (by decide) (by decide)⟩

/-- C10 (counterexample to the claim as stated): a 14-column record whose
`Line` cell is `abc` but whose `Column` cell is `7` loads with Line 0 and
Column 7 — not Line 0 and Column 0 as the claim states. -/
theorem c10_counterexample :
    (parseRecord c10record).map (fun u => (u.Line, u.Column)) = some (0, 7) ∧
    some ((0 : Int), (7 : Int)) ≠ some ((0 : Int), (0 : Int)) := by
  constructor
  · rfl
  · decide

/-- C1 (code defect): with two matched call sites on one line — `f(1)` at
columns 1-4 and `g(2)` at columns 7-10 of `f(1); g(2)` — the patcher applies
the second replacement with the original column offsets against the line
already modified by the first replacement, splicing into the middle of the
first edit: the run (slog style, new messages `a` and `b`) produces the
corrupted `log.inlog.info("b")a"); g(2)` instead of the exact-span result
`log.info("a"); log.info("b")`. -/
theorem c1_same_line_edits_corrupt :
    (transformFile noJson noTmpl c1calls c1updates slogCfg false true c1content).content =
      gs "log.inlog.info(\"b\")a\"); g(2)" ∧
    gs "log.inlog.info(\"b\")a\"); g(2)" ≠ gs "log.info(\"a\"); log.info(\"b\")" ∧
    replaceCallExpr 1 7 1 11 (gs "log.info(\"b\")")
        (replaceCallExpr 1 1 1 5 (gs "log.info(\"a\")") c1content) =
      gs "log.inlog.info(\"b\")a\"); g(2)" := by
  refine ⟨by rfl, by decide, by rfl⟩

/-- C8 (amended): scanning `log.Printf("error: %v", err)` collects message
template `"error: %v"` and one candidate (key `error`, type `error`,
expression `err`, verb `%v`); the scanner classifies `log.Printf` as level
`Info` (only the generic `print` marker matches), and with
NewMessage `Failed to process request`, no override, the slog style and
logger variable `logger`, generation yields
`logger.info("Failed to process request", slog.Any("error", err))` —
lowercase level method, `slog.Any` generic wrapper. -/
theorem c8_printf_scenario :
    getFunctionName (.call (.selector (.ident (gs "log")) (gs "Printf"))) =
      gs "log.Printf" ∧
    extractLogLevel (gs "log.Printf") = gs "Info" ∧
    extractLogDetails [.basicLit .string (gs "\"error: %v\""), .ident (gs "err")] =
      (gs "\"error: %v\"",
       [{ Index := 0, Expression := gs "err", VarName := gs "err", Typ := gs "error",
          FormatVerb := gs "%v", SuggestedKey := gs "error" }]) ∧
    formatArgumentDetails
        [{ Index := 0, Expression := gs "err", VarName := gs "err", Typ := gs "error",
           FormatVerb := gs "%v", SuggestedKey := gs "error" }] =
      gs "error(error)=err[%v]" ∧
    generateStructuredLogCall noJson noTmpl c8update ⟨gs "slog", gs "logger", []⟩ true =
      .ok (gs "logger.info(\"Failed to process request\", slog.Any(\"error\", err))") := by
  refine ⟨by rfl, by rfl, by rfl, by rfl, by rfl⟩

/-- C8 (counterexample to the claim as stated): the generated call is the
lowercase-info `logger.info(..., slog.Any(...))`, not the claimed
`logger.Error("Failed to process request", Any("error", err))`. -/
theorem c8_counterexample :
    generateStructuredLogCall noJson noTmpl c8update ⟨gs "slog", gs "logger", []⟩ true =
      .ok (gs "logger.info(\"Failed to process request\", slog.Any(\"error\", err))") ∧
    gs "logger.info(\"Failed to process request\", slog.Any(\"error\", err))" ≠
      gs "logger.Error(\"Failed to process request\", Any(\"error\", err))" := by
  refine ⟨by rfl, by decide⟩

theorem buildArgs_length (fvs : List GoStr) :
    ∀ (j : Nat) (args : List GoExpr), (buildArgs fvs j args).length = args.length := by
  intro j args
  induction args generalizing j with
  | nil => rfl
  | cons a rest ih => simp [buildArgs, ih]

theorem buildArgs_map_verb (fvs : List GoStr) :
    ∀ (args : List GoExpr) (j : Nat),
      (buildArgs fvs j args).map Argument.FormatVerb =
        (List.range args.length).map (fun i => fvs.getD (j + i) []) := by
  intro args
  induction args with
  | nil => intro j; rfl
  | cons a rest ih =>
    intro j
    simp only [buildArgs, List.map_cons, List.length_cons, List.range_succ_eq_map,
      List.map_map]
    rw [ih (j + 1)]
    congr 1
    apply List.map_congr_left
    intro i _
    have hidx : j + 1 + i = j + (i + 1) := by omega
    rw [hidx]
    rfl

theorem buildArgs_map_index (fvs : List GoStr) :
    ∀ (args : List GoExpr) (j : Nat),
      (buildArgs fvs j args).map Argument.Index =
        (List.range args.length).map (· + j) := by
  intro args
  induction args with
  | nil => intro j; rfl
  | cons a rest ih =>
    intro j
    simp only [buildArgs, List.map_cons, List.length_cons, List.range_succ_eq_map,
      List.map_map]
    rw [ih (j + 1)]
    congr 1
    · simp
    · apply List.map_congr_left
      intro i _
      show i + (j + 1) = (i + 1) + j
      omega

theorem buildArgs_map_expr (fvs : List GoStr) :
    ∀ (args : List GoExpr) (j : Nat),
      (buildArgs fvs j args).map Argument.Expression = args.map formatExpr := by
  intro args
  induction args with
  | nil => intro j; rfl
  | cons a rest ih => intro j; simp [buildArgs, ih (j + 1)]

theorem buildArgs_countP (fvs : List GoStr) :
    ∀ (args : List GoExpr) (j : Nat),
      (buildArgs fvs j args).countP (fun a => !a.FormatVerb.isEmpty) ≤
        fvs.length - j := by
  intro args
  induction args with
  | nil => intro j; simp [buildArgs]
  | cons a rest ih =>
    intro j
    have h1 := ih (j + 1)
    by_cases hj : j < fvs.length
    · have hstep : (buildArgs fvs j (a :: rest)).countP
            (fun x => !x.FormatVerb.isEmpty) ≤
          (buildArgs fvs (j + 1) rest).countP (fun x => !x.FormatVerb.isEmpty) + 1 := by
        simp only [buildArgs, List.countP_cons]
        split <;> omega
      omega
    · have hd : fvs[j]?.getD [] = ([] : GoStr) := by
        rw [List.getElem?_eq_none (by omega)]
        rfl
      have hstep : (buildArgs fvs j (a :: rest)).countP
            (fun x => !x.FormatVerb.isEmpty) =
          (buildArgs fvs (j + 1) rest).countP (fun x => !x.FormatVerb.isEmpty) := by
        simp [buildArgs, List.countP_cons, hd]
      omega

/-- C5: a call with a string-literal message and `m` trailing arguments
yields exactly `m` FieldCandidates, in original argument order (indices
`0..m-1`, expressions in source order); the `N`th candidate carries the
`N`th extracted format verb of the literal (empty when there is no such
verb), independent of verb/type compatibility, so at most
`min(k, m)` candidates carry a non-empty verb, where `k` is the number of
verbs found left-to-right in the literal. -/
theorem c5_positional_pairing (msgLit : GoStr) (rest : List GoExpr) :
    (extractLogDetails (GoExpr.basicLit .string msgLit :: rest)).2.length =
      rest.length ∧
    (extractLogDetails (GoExpr.basicLit .string msgLit :: rest)).2.map
        Argument.FormatVerb =
      (List.range rest.length).map (fun i => (extractFormatVerbs msgLit).getD i []) ∧
    (extractLogDetails (GoExpr.basicLit .string msgLit :: rest)).2.map
        Argument.Index = List.range rest.length ∧
    (extractLogDetails (GoExpr.basicLit .string msgLit :: rest)).2.map
        Argument.Expression = rest.map formatExpr ∧
    (extractLogDetails (GoExpr.basicLit .string msgLit :: rest)).2.countP
        (fun a => !a.FormatVerb.isEmpty) ≤
      min (extractFormatVerbs msgLit).length rest.length := by
  have hdet : (extractLogDetails (GoExpr.basicLit .string msgLit :: rest)).2 =
      buildArgs (extractFormatVerbs msgLit) 0 rest := rfl
  rw [hdet]
  refine ⟨buildArgs_length _ 0 rest, ?_, ?_, buildArgs_map_expr _ rest 0, ?_⟩
  · rw [buildArgs_map_verb]
    simp
  · rw [buildArgs_map_index]
    simp
  · have h1 := buildArgs_countP (extractFormatVerbs msgLit) rest 0
    have h2 : (buildArgs (extractFormatVerbs msgLit) 0 rest).countP
        (fun a => !a.FormatVerb.isEmpty) ≤ rest.length := by
      have := List.countP_le_length (l := buildArgs (extractFormatVerbs msgLit) 0 rest)
        (p := fun a => !a.FormatVerb.isEmpty)
      rw [buildArgs_length _ 0 rest] at this
      exact this
    omega

theorem parseSimpleFields_eq_spec (s : GoStr) :
    parseSimpleFields s = parseSimpleFieldsSpec s := by
  unfold parseSimpleFields parseSimpleFieldsSpec
  have hgs : gs ";" = [';'] := rfl
  rw [hgs]
  by_cases h : ';' ∈ s
  · have hc : goContainsSub s [';'] = true := (goContainsSub_singleton s ';').mpr h
    have hl : ¬ (splitOnChar ';' s).length = 1 := by
      rw [splitOnChar_length_eq_one]
      simpa using h
    simp [hc, hl]
  · have hc : goContainsSub s [';'] = false := by
      rw [← Bool.not_eq_true, goContainsSub_singleton]
      exact h
    have hl : (splitOnChar ';' s).length = 1 := (splitOnChar_length_eq_one ';' s).mpr h
    simp [hc, hl]

/-- C7: field resolution follows the spec's precedence exactly — a non-empty
override that unmarshals is used verbatim (no merging), a non-empty override
that fails structured parsing is reinterpreted with the simple key=expr /
key:expr grammar split on `;` (falling back to `,` exactly when no `;` is
present), and only an empty override falls through to auto-derivation. -/
theorem c7_resolution_precedence (jp : JsonParse) (sf ad : GoStr) (am : Bool) :
    resolveFields jp sf ad am = resolveFieldsSpec jp sf ad am ∧
    (∀ fs, sf ≠ [] → jp sf = some fs → resolveFields jp sf ad am = fs) ∧
    (sf = [] → am = true → ad ≠ [] →
      resolveFields jp sf ad am = autoGenerateFieldsFromArguments ad) := by
  refine ⟨?_, ?_, ?_⟩
  · unfold resolveFields resolveFieldsSpec
    by_cases hsf : sf = []
    · simp [hsf]
    · simp only [hsf, ne_eq, not_false_iff, if_true]
      cases jp sf with
      | none => exact parseSimpleFields_eq_spec sf
      | some fs => rfl
  · intro fs hne hjp
    unfold resolveFields
    simp [hne, hjp]
  · intro hsf ham had
    unfold resolveFields
    simp [hsf, ham, had]

/-- C7 witness. -/
theorem c7_witness :
    (resolveFields jsonSome (gs "k=v") [] true =
      resolveFieldsSpec jsonSome (gs "k=v") [] true) ∧
    gs "k=v" ≠ [] ∧ jsonSome (gs "k=v") = some [⟨gs "a", gs "b", gs "c"⟩] ∧
    resolveFields jsonSome (gs "k=v") [] true = [⟨gs "a", gs "b", gs "c"⟩] ∧
    (gs "error(error)=err[%v]" : GoStr) ≠ [] ∧
    resolveFields noJson [] (gs "error(error)=err[%v]") true =
      autoGenerateFieldsFromArguments (gs "error(error)=err[%v]") :=
  ⟨(c7_resolution_precedence jsonSome (gs "k=v") [] true).1,
   by decide, by rfl,
   (c7_resolution_precedence jsonSome (gs "k=v") [] true).2.1 _ (by decide) (by rfl),
   by decide,
   (c7_resolution_precedence noJson [] (gs "error(error)=err[%v]") true).2.2 rfl rfl
     (by decide)⟩

theorem head_not_ws_opt (s : GoStr) (h : goTrimSpace s = s) :
    ∀ c, s.head? = some c → isWS c = false := by
  intro c hc
  cases s with
  | nil => simp at hc
  | cons d r =>
    simp at hc
    subst hc
    exact head_not_ws _ h _ _ rfl

theorem last_not_ws_opt (s : GoStr) (h : goTrimSpace s = s) :
    ∀ c, s.getLast? = some c → isWS c = false := by
  intro c hc
  rw [← List.head?_reverse] at hc
  cases hrev : s.reverse with
  | nil => rw [hrev] at hc; simp at hc
  | cons d r =>
    rw [hrev] at hc
    simp at hc
    subst hc
    exact last_not_ws s h _ _ hrev

theorem charIdx_cons_self (c : Char) (r : GoStr) : charIdx c (c :: r) = some 0 := by
  unfold charIdx
  simp

theorem head_not_ws_append (x y : GoStr) (hx : goTrimSpace x = x)
    (hy : ∀ c, y.head? = some c → isWS c = false) :
    ∀ c, (x ++ y).head? = some c → isWS c = false := by
  intro c hc
  cases x with
  | nil => exact hy c (by simpa using hc)
  | cons c0 x' =>
    simp only [List.cons_append, List.head?_cons, Option.some.injEq] at hc
    subst hc
    exact head_not_ws _ hx _ _ rfl

theorem parseArgDetail_noverb (k t e : GoStr)
    (hk1 : '(' ∉ k) (hk2 : ')' ∉ k) (hk3 : '=' ∉ k) (hk5 : goTrimSpace k = k)
    (ht1 : ')' ∉ t) (ht2 : '=' ∉ t) (ht4 : goTrimSpace t = t)
    (he1 : '[' ∉ e) (he3 : goTrimSpace e = e) :
    parseArgDetail (k ++ '(' :: (t ++ ')' :: '=' :: e)) = some ⟨k, e, t⟩ := by
  have hne : ¬ (k ++ '(' :: (t ++ ')' :: '=' :: e)) = [] := by simp
  have htrim : goTrimSpace (k ++ '(' :: (t ++ ')' :: '=' :: e)) =
      k ++ '(' :: (t ++ ')' :: '=' :: e) := by
    apply goTrimSpace_eq_self
    · apply head_not_ws_append k _ hk5
      intro c hc
      simp at hc
      subst hc
      decide
    · intro c hc
      by_cases heq : e = []
      · subst heq
        have hre : k ++ '(' :: (t ++ ')' :: '=' :: ([] : GoStr)) =
            (k ++ '(' :: (t ++ [')'])) ++ ['='] := by simp
        rw [hre, List.getLast?_concat] at hc
        simp at hc
        subst hc
        decide
      · have hre : k ++ '(' :: (t ++ ')' :: '=' :: e) =
            (k ++ '(' :: (t ++ [')', '='])) ++ e := by simp
        rw [hre, List.getLast?_append_of_ne_nil _ heq] at hc
        exact last_not_ws_opt e he3 c hc
  have hopen : charIdx '(' (k ++ '(' :: (t ++ ')' :: '=' :: e)) = some k.length := by
    rw [charIdx_append_of_not_mem _ _ _ hk1, charIdx_cons_self]
    simp
  have hclose : charIdx ')' (k ++ '(' :: (t ++ ')' :: '=' :: e)) =
      some (t.length + 1 + k.length) := by
    rw [charIdx_append_of_not_mem _ _ _ hk2, charIdx_cons_ne _ _ _ (by decide),
      charIdx_append_of_not_mem _ _ _ ht1, charIdx_cons_self]
    simp
  have hequals : charIdx '=' (k ++ '(' :: (t ++ ')' :: '=' :: e)) =
      some (t.length + 1 + 1 + k.length) := by
    rw [charIdx_append_of_not_mem _ _ _ hk3, charIdx_cons_ne _ _ _ (by decide),
      charIdx_append_of_not_mem _ _ _ ht2, charIdx_cons_ne _ _ _ (by decide),
      charIdx_cons_self]
    simp
    omega
  have hdrop1 : (k ++ '(' :: (t ++ ')' :: '=' :: e)).drop (k.length + 1) =
      t ++ ')' :: '=' :: e := by
    rw [List.append_cons]
    have hlen : (k ++ ['(']).length = k.length + 1 := by simp
    rw [← hlen, List.drop_left]
  have hdropE : (k ++ '(' :: (t ++ ')' :: '=' :: e)).drop
      (t.length + 1 + 1 + k.length + 1) = e := by
    have hre : k ++ '(' :: (t ++ ')' :: '=' :: e) =
        ((k ++ ['(']) ++ ((t ++ [')']) ++ ['='])) ++ e := by simp
    rw [hre]
    have hlen : ((k ++ ['(']) ++ ((t ++ [')']) ++ ['='])).length =
        t.length + 1 + 1 + k.length + 1 := by
      simp only [List.length_append, List.length_cons, List.length_nil]
      omega
    rw [← hlen, List.drop_left]
  have hbr : charIdx '[' e = none := charIdx_not_mem _ _ he1
  unfold parseArgDetail
  rw [htrim, if_neg hne]
  simp only [hopen, hclose, hequals]
  rw [if_neg (show ¬ (t.length + 1 + k.length ≤ k.length) from by omega)]
  rw [if_neg (show ¬ (t.length + 1 + 1 + k.length ≤ t.length + 1 + k.length) from by omega)]
  rw [List.take_left, hk5, hdrop1]
  rw [show t.length + 1 + k.length - k.length - 1 = t.length from by omega]
  rw [List.take_left, ht4, hdropE, he3]
  simp only [hbr]

theorem parseArgDetail_verb (k t e v : GoStr)
    (hk1 : '(' ∉ k) (hk2 : ')' ∉ k) (hk3 : '=' ∉ k) (hk5 : goTrimSpace k = k)
    (ht1 : ')' ∉ t) (ht2 : '=' ∉ t) (ht4 : goTrimSpace t = t)
    (he1 : '[' ∉ e) (he3 : goTrimSpace e = e) :
    parseArgDetail (k ++ '(' :: (t ++ ')' :: '=' :: (e ++ '[' :: (v ++ [']'])))) =
      some ⟨k, e, t⟩ := by
  have hne : ¬ (k ++ '(' :: (t ++ ')' :: '=' :: (e ++ '[' :: (v ++ [']'])))) = [] := by
    simp
  have hlastBR : ∀ c : Char,
      (e ++ '[' :: (v ++ [']'])).getLast? = some c → isWS c = false := by
    intro c hc
    have hre : e ++ '[' :: (v ++ [']']) = (e ++ '[' :: v) ++ [']'] := by simp
    rw [hre, List.getLast?_concat] at hc
    simp at hc
    subst hc
    decide
  have htrim : goTrimSpace (k ++ '(' :: (t ++ ')' :: '=' :: (e ++ '[' :: (v ++ [']'])))) =
      k ++ '(' :: (t ++ ')' :: '=' :: (e ++ '[' :: (v ++ [']'])) ) := by
    apply goTrimSpace_eq_self
    · apply head_not_ws_append k _ hk5
      intro c hc
      simp at hc
      subst hc
      decide
    · intro c hc
      have hre : k ++ '(' :: (t ++ ')' :: '=' :: (e ++ '[' :: (v ++ [']']))) =
          (k ++ '(' :: (t ++ ')' :: '=' :: (e ++ '[' :: v))) ++ [']'] := by simp
      rw [hre, List.getLast?_concat] at hc
      simp at hc
      subst hc
      decide
  have hexp : goTrimSpace (e ++ '[' :: (v ++ [']'])) = e ++ '[' :: (v ++ [']']) := by
    apply goTrimSpace_eq_self
    · apply head_not_ws_append e _ he3
      intro c hc
      simp at hc
      subst hc
      decide
    · exact hlastBR
  have hopen : charIdx '(' (k ++ '(' :: (t ++ ')' :: '=' :: (e ++ '[' :: (v ++ [']'])))) =
      some k.length := by
    rw [charIdx_append_of_not_mem _ _ _ hk1, charIdx_cons_self]
    simp
  have hclose : charIdx ')' (k ++ '(' :: (t ++ ')' :: '=' :: (e ++ '[' :: (v ++ [']'])))) =
      some (t.length + 1 + k.length) := by
    rw [charIdx_append_of_not_mem _ _ _ hk2, charIdx_cons_ne _ _ _ (by decide),
      charIdx_append_of_not_mem _ _ _ ht1, charIdx_cons_self]
    simp
  have hequals : charIdx '=' (k ++ '(' :: (t ++ ')' :: '=' :: (e ++ '[' :: (v ++ [']'])))) =
      some (t.length + 1 + 1 + k.length) := by
    rw [charIdx_append_of_not_mem _ _ _ hk3, charIdx_cons_ne _ _ _ (by decide),
      charIdx_append_of_not_mem _ _ _ ht2, charIdx_cons_ne _ _ _ (by decide),
      charIdx_cons_self]
    simp
    omega
  have hdrop1 : (k ++ '(' :: (t ++ ')' :: '=' :: (e ++ '[' :: (v ++ [']'])))).drop
      (k.length + 1) = t ++ ')' :: '=' :: (e ++ '[' :: (v ++ [']'])) := by
    rw [List.append_cons]
    have hlen : (k ++ ['(']).length = k.length + 1 := by simp
    rw [← hlen, List.drop_left]
  have hdropE : (k ++ '(' :: (t ++ ')' :: '=' :: (e ++ '[' :: (v ++ [']'])))).drop
      (t.length + 1 + 1 + k.length + 1) = e ++ '[' :: (v ++ [']']) := by
    have hre : k ++ '(' :: (t ++ ')' :: '=' :: (e ++ '[' :: (v ++ [']']))) =
        ((k ++ ['(']) ++ ((t ++ [')']) ++ ['='])) ++ (e ++ '[' :: (v ++ [']'])) := by
      simp
    rw [hre]
    have hlen : ((k ++ ['(']) ++ ((t ++ [')']) ++ ['='])).length =
        t.length + 1 + 1 + k.length + 1 := by
      simp only [List.length_append, List.length_cons, List.length_nil]
      omega
    rw [← hlen, List.drop_left]
  have hbr : charIdx '[' (e ++ '[' :: (v ++ [']'])) = some e.length := by
    rw [charIdx_append_of_not_mem _ _ _ he1, charIdx_cons_self]
    simp
  unfold parseArgDetail
  rw [htrim, if_neg hne]
  simp only [hopen, hclose, hequals]
  rw [if_neg (show ¬ (t.length + 1 + k.length ≤ k.length) from by omega)]
  rw [if_neg (show ¬ (t.length + 1 + 1 + k.length ≤ t.length + 1 + k.length) from by omega)]
  rw [List.take_left, hk5, hdrop1]
  rw [show t.length + 1 + k.length - k.length - 1 = t.length from by omega]
  rw [List.take_left, ht4, hdropE, hexp]
  simp only [hbr]
  rw [List.take_left, he3]

theorem parseArgDetail_detailOf (a : Argument) (h : RoundTrippable a) :
    parseArgDetail (detailOf a) = some ⟨a.SuggestedKey, a.Expression, a.Typ⟩ := by
  obtain ⟨hk1, hk2, hk3, hk4, hk5, ht1, ht2, ht3, ht4, he1, he2, he3, hv1⟩ := h
  by_cases hv : a.FormatVerb = []
  · have hD : detailOf a =
        a.SuggestedKey ++ '(' :: (a.Typ ++ ')' :: '=' :: a.Expression) := by
      unfold detailOf
      rw [show gs "(" = ['('] from rfl, show gs ")=" = [')', '='] from rfl]
      simp [hv, List.append_assoc]
    rw [hD]
    exact parseArgDetail_noverb _ _ _ hk1 hk2 hk3 hk5 ht1 ht2 ht4 he1 he3
  · have hD : detailOf a = a.SuggestedKey ++ '(' :: (a.Typ ++ ')' :: '=' ::
        (a.Expression ++ '[' :: (a.FormatVerb ++ [']']))) := by
      unfold detailOf
      rw [show gs "(" = ['('] from rfl, show gs ")=" = [')', '='] from rfl,
        show gs "[" = ['['] from rfl, show gs "]" = [']'] from rfl]
      simp [hv, List.append_assoc]
    rw [hD]
    exact parseArgDetail_verb _ _ _ _ hk1 hk2 hk3 hk5 ht1 ht2 ht4 he1 he3

theorem parseArgDetail_cons_space (x : GoStr) :
    parseArgDetail (' ' :: x) = parseArgDetail x := by
  unfold parseArgDetail
  rw [goTrimSpace_cons_space]

theorem semi_not_mem_detailOf (a : Argument) (h : RoundTrippable a) :
    ';' ∉ detailOf a := by
  obtain ⟨hk1, hk2, hk3, hk4, hk5, ht1, ht2, ht3, ht4, he1, he2, he3, hv1⟩ := h
  intro hmem
  unfold detailOf at hmem
  rw [show gs "(" = ['('] from rfl, show gs ")=" = [')', '='] from rfl,
    show gs "[" = ['['] from rfl, show gs "]" = [']'] from rfl] at hmem
  by_cases hv : a.FormatVerb ≠ []
  · rw [if_pos hv] at hmem
    simp +decide [List.mem_append, List.mem_cons] at hmem
    rcases hmem with h | h | h | h
    exacts [hk4 h, ht3 h, he2 h, hv1 h]
  · rw [if_neg hv] at hmem
    simp +decide [List.mem_append, List.mem_cons] at hmem
    rcases hmem with h | h | h
    exacts [hk4 h, ht3 h, he2 h]

theorem detailOf_ne_nil (a : Argument) : detailOf a ≠ [] := by
  unfold detailOf
  rw [show gs "(" = ['('] from rfl]
  simp

theorem autoGen_join (args : List Argument) (h : ∀ a ∈ args, RoundTrippable a)
    (hne : args ≠ []) :
    (splitOnChar ';' (joinSep (gs "; ") (args.map detailOf))).filterMap
        parseArgDetail =
      args.map (fun a => ⟨a.SuggestedKey, a.Expression, a.Typ⟩) := by
  induction args with
  | nil => exact absurd rfl hne
  | cons a rest ih =>
    have ha : RoundTrippable a := h a (List.mem_cons_self a rest)
    have hrest : ∀ x ∈ rest, RoundTrippable x :=
      fun x hx => h x (List.mem_cons_of_mem _ hx)
    cases rest with
    | nil =>
      rw [show (([a] : List Argument).map detailOf) = [detailOf a] from rfl,
        show joinSep (gs "; ") [detailOf a] = detailOf a from rfl,
        splitOnChar_of_not_mem ';' _ (semi_not_mem_detailOf a ha)]
      simp [List.filterMap_cons, parseArgDetail_detailOf a ha]
    | cons b rest2 =>
      have hjoin : joinSep (gs "; ") ((a :: b :: rest2).map detailOf) =
          detailOf a ++ ';' ::
            (' ' :: joinSep (gs "; ") ((b :: rest2).map detailOf)) := by
        rw [show gs "; " = [';', ' '] from rfl]
        simp [joinSep, List.append_assoc]
      rw [hjoin, splitOnChar_append_sep ';' _ _ (semi_not_mem_detailOf a ha)]
      cases hsp : splitOnChar ';'
          (joinSep (gs "; ") ((b :: rest2).map detailOf)) with
      | nil => exact absurd hsp (splitOnChar_ne_nil _ _)
      | cons s0 ss =>
        rw [splitOnChar_cons_ne ';' ' ' _ (by decide), hsp]
        have htail := ih hrest (by simp)
        rw [hsp] at htail
        simp only [List.filterMap_cons, parseArgDetail_detailOf a ha,
          parseArgDetail_cons_space] at htail ⊢
        rw [List.map_cons]
        cases hs0 : parseArgDetail s0 with
        | none => rw [hs0] at htail; rw [htail]
        | some fm => rw [hs0] at htail; rw [htail]

theorem formatArgumentDetails_cons_ne_nil (a : Argument) (rest : List Argument) :
    formatArgumentDetails (a :: rest) ≠ [] := by
  unfold formatArgumentDetails
  rw [if_neg (by simp)]
  cases rest with
  | nil => exact detailOf_ne_nil a
  | cons b r =>
    have : joinSep (gs "; ") ((a :: b :: r).map detailOf) =
        detailOf a ++ ';' :: (' ' :: joinSep (gs "; ") ((b :: r).map detailOf)) := by
      rw [show gs "; " = [';', ' '] from rfl]
      simp [joinSep, List.append_assoc]
    rw [this]
    simp

/-- C6 (amended): serializing candidates with `formatArgumentDetails` and
re-parsing with `autoGenerateFieldsFromArguments` round-trips
(key, type, expression) in order — and hence field resolution with an empty
override and auto-mapping enabled resolves exactly the candidates' keys and
expressions, discarding the format-verb annotation — provided each
candidate's serialized pieces avoid the parser's delimiter characters:
the key free of `(` `)` `=` `;`, the type free of `)` `=` `;`, the
expression free of `[` `;`, the verb free of `;`, and key, type and
expression free of surrounding whitespace.  (All analyzer-inferred type tags
and verbs satisfy their conditions; keys and expressions of plain
identifier/selector arguments do too, while e.g. call-expression arguments
violate them.) -/
theorem c6_auto_mapping_roundtrip (args : List Argument)
    (h : ∀ a ∈ args, RoundTrippable a) :
    autoGenerateFieldsFromArguments (formatArgumentDetails args) =
      args.map (fun a => ⟨a.SuggestedKey, a.Expression, a.Typ⟩) ∧
    ∀ jp : JsonParse, resolveFields jp [] (formatArgumentDetails args) true =
      args.map (fun a => ⟨a.SuggestedKey, a.Expression, a.Typ⟩) := by
  have hmain : autoGenerateFieldsFromArguments (formatArgumentDetails args) =
      args.map (fun a => ⟨a.SuggestedKey, a.Expression, a.Typ⟩) := by
    cases args with
    | nil => rfl
    | cons a rest =>
      unfold formatArgumentDetails autoGenerateFieldsFromArguments
      rw [if_neg (by simp)]
      exact autoGen_join (a :: rest) h (by simp)
  refine ⟨hmain, ?_⟩
  intro jp
  unfold resolveFields
  rw [if_neg (by simp)]
  cases args with
  | nil => rfl
  | cons a rest =>
    rw [if_pos ⟨rfl, formatArgumentDetails_cons_ne_nil a rest⟩]
    exact hmain

/-- C6 witness. -/
theorem c6_witness :
    (∀ a ∈ [c6goodArg], RoundTrippable a) ∧
    (autoGenerateFieldsFromArguments (formatArgumentDetails [c6goodArg]) =
      [c6goodArg].map (fun a => ⟨a.SuggestedKey, a.Expression, a.Typ⟩) ∧
    ∀ jp : JsonParse, resolveFields jp [] (formatArgumentDetails [c6goodArg]) true =
      [c6goodArg].map (fun a => ⟨a.SuggestedKey, a.Expression, a.Typ⟩)) :=
  ⟨by decide, c6_auto_mapping_roundtrip [c6goodArg] (by decide)⟩

/-- C6 (counterexample to the claim as stated): the analyzer output for
`log.Printf("%v", getUser())` is one candidate with suggested key
`get_user()`; its serialization `get_user()(func_result)=getUser()[%v]`
re-parses with key `get_user` and type `""` — the round trip loses the
key's `()` suffix and the type tag, so auto-mapping does not reproduce the
candidate's (key, type, expression). -/
theorem c6_counterexample :
    c6args.length = 1 ∧
    (autoGenerateFieldsFromArguments (formatArgumentDetails c6args)).map
        (fun f => (f.Key, f.Expression, f.Typ)) ≠
      c6args.map (fun a => (a.SuggestedKey, a.Expression, a.Typ)) := by
  constructor
  · rfl
  · decide

/-! ## Concrete evaluations of the model -/

example : splitOnChar ';' (gs "a;b;;c") = [gs "a", gs "b", gs "", gs "c"] := by decide

example : goTrimSpace (gs "  ab c\t") = gs "ab c" := by decide

example : goContainsSub (gs "log.printf") (gs "print") = true := by decide

example : goContainsSub (gs "log.printf") (gs "info") = false := by decide

example : goTitle (gs "warning") = gs "Warning" := by decide

example : charIdx '(' (gs "ab(cd") = some 2 := by decide

example : splitAtFirst '=' (gs "a=b=c") = (gs "a", gs "b=c") := by decide

example : goTrimCut (gs "\"error: %v\"") quoteCutset = gs "error: %v" := by decide

example : extractFormatVerbs (gs "\"error: %v\"") = [gs "%v"] := by decide

example : extractFormatVerbs (gs "\"%s took %5.2f ms (%d)\"") =
    [gs "%s", gs "%5.2f", gs "%d"] := by decide

example : extractFormatVerbs (gs "\"100%% done %q\"") = [gs "% d", gs "%q"] := by decide

example : extractLogLevel (gs "log.Printf") = gs "Info" := by decide

example : extractLogLevel (gs "logger.Warningf") = gs "Warn" := by decide

example : inferType (.ident (gs "err")) = gs "error" := by decide

example : generateFieldKey (gs "userName") [] [] = gs "user_name" := by decide

example : generateFieldKey (gs "err") [] [] = gs "error" := by decide

example :
    (extractLogDetails [.basicLit .string (gs "\"error: %v\""), .ident (gs "err")]).2 =
      [{ Index := 0, Expression := gs "err", VarName := gs "err", Typ := gs "error",
         FormatVerb := gs "%v", SuggestedKey := gs "error" }] := by decide

example : formatArgumentDetails
    [{ Index := 0, Expression := gs "err", VarName := gs "err", Typ := gs "error",
       FormatVerb := gs "%v", SuggestedKey := gs "error" }] = gs "error(error)=err[%v]" := by
  decide

example : autoGenerateFieldsFromArguments (gs "error(error)=err[%v]; user(unknown)=user.Name[%s]") =
    [⟨gs "error", gs "err", gs "error"⟩, ⟨gs "user", gs "user.Name", gs "unknown"⟩] := by decide

example : parseSimpleFields (gs "a=x,b:y") =
    [⟨gs "a", gs "x", gs "unknown"⟩, ⟨gs "b", gs "y", gs "unknown"⟩] := by decide

example : (goAtoi (gs "42")).1 = 42 := by decide

example : goAtoi (gs "abc") = (0, false) := by decide

example : (goAtoi (gs "-5")).1 = -5 := by decide

example :
    replaceCallExpr 1 1 1 5 (gs "log.info(\"a\")") (gs "f(1); g(2)") =
      gs "log.info(\"a\"); g(2)" := by decide
